import Mathlib

/-!
Verification of the ECS runtime (entity / system / coordinator triangle).

Shallow embedding of the three source files:
  src/entity.ts       (class Entity)
  src/system.ts       (class System)
  src/ecs.ts          (class ECS)
  src/utils.ts        (fastSplice)

Modelling conventions:
  - JS object references are replaced by numeric identifiers: entities and
    systems are identified by a `Nat` key into the stores `World.ents` and
    `World.sysStates`.  The membership arrays (`System.entities`,
    `Entity.systems`, the population, the systems list, the dirty queue)
    are lists of those identifiers, preserving insertion order exactly as
    the JS arrays do.
  - The abstract lifecycle hooks (`enter`, `exit`, `preUpdate`, `update`,
    `postUpdate`) are application code outside the core; they are modelled
    as pure observers recorded in an event log (`World.log`), so theorems
    can speak about which hooks fired, how often, and in which order.
  - The eligibility predicate `System.test` is, per the data model, a pure
    function of the entity component set; it is stored per system as a
    function over the list of component names.
  - The monotonic clock (`performance.now`, `lastUpdate`, `elapsed`) is an
    injected service with no bearing on membership or scheduling, so it is
    not part of the state.
-/

/-- Field map of a single component: JS object seen as ordered key/value
pairs (property writes either update in place or append). -/
abbrev FieldMap := List (String × Int)

/-- Lookup in an insertion-ordered association list (JS Map.get / property
read): first binding of the key wins. -/
def lookupAssoc {α : Type} (m : List (String × α)) (k : String) : Option α :=
  match m with
  | [] => none
  | (k₁, v) :: rest => if k₁ = k then some v else lookupAssoc rest k

/-- JS Map.set / property write: update the existing binding in place
(keeping insertion order) or append a fresh one. -/
def setAssoc {α : Type} (m : List (String × α)) (k : String) (v : α) :
    List (String × α) :=
  match m with
  | [] => [(k, v)]
  | (k₁, v₁) :: rest =>
      if k₁ = k then (k, v) :: rest else (k₁, v₁) :: setAssoc rest k v

/-- JS Map.delete: drop the binding of the key, keep the order of the rest. -/
def eraseAssoc {α : Type} (m : List (String × α)) (k : String) :
    List (String × α) :=
  match m with
  | [] => []
  | (k₁, v₁) :: rest =>
      if k₁ = k then rest else (k₁, v₁) :: eraseAssoc rest k

/-- src/utils.ts `fastSplice(array, startIndex, removeCount)`: out-of-range
start or zero count is a no-op; otherwise the clamped count of elements
from `startIndex` on is removed (the JS loop shifts the tail left and
truncates, which is exactly take-then-drop). -/
def fastSplice {α : Type} (l : List α) (startIndex removeCount : Nat) :
    List α :=
  if startIndex ≥ l.length ∨ removeCount = 0 then l
  else l.take startIndex ++ l.drop (startIndex + removeCount)

/-- JS `Array.prototype.indexOf`: index of the first occurrence, `none` for
the source's -1. -/
def jsIndexOf (l : List Nat) (x : Nat) : Option Nat :=
  match l with
  | [] => none
  | y :: rest => if y = x then some 0 else (jsIndexOf rest x).map (· + 1)

/-- Observable hook invocations of the abstract lifecycle methods. -/
inductive Event where
  | enter (sid eid : Nat)
  | exit (sid eid : Nat)
  | ran (sid : Nat)
deriving DecidableEq

/-- State of one `Entity` (src/entity.ts): the component bag, the
system-membership cache `systems` (insertion order), the dirty flag and
whether the back-reference `this.ecs` has been set by `addToECS`. -/
structure EntityState where
  components : List (String × FieldMap)
  systems : List Nat
  systemsDirty : Bool
  inECS : Bool
deriving DecidableEq

/-- State of one `System` (src/system.ts): frequency, the eligibility
predicate over the entity component-name set, and the member list. -/
structure SysState where
  frequency : Nat
  test : List String → Bool
  entities : List Nat

/-- State of the coordinator plus the object stores (src/ecs.ts fields
`entities`, `systems`, `entitiesSystemsDirty`, `updateCounter`), and the
hook log. -/
structure World where
  ents : Nat → EntityState
  entities : List Nat
  sysStates : Nat → SysState
  systems : List Nat
  entitiesSystemsDirty : List Nat
  updateCounter : Nat
  log : List Event

/-- Component names of an entity, the input of the eligibility predicate. -/
def compNames (e : EntityState) : List String := e.components.map Prod.fst

/-- Entity.setSystemsDirty: only when not already dirty and attached to a
coordinator, set the flag and push onto the coordinator dirty queue. -/
def World.setSystemsDirty (w : World) (eid : Nat) : World :=
  let e := w.ents eid
  if !e.systemsDirty && e.inECS then
    { w with
      ents := Function.update w.ents eid { e with systemsDirty := true },
      entitiesSystemsDirty := w.entitiesSystemsDirty ++ [eid] }
  else w

/-- Entity.addComponent: set the binding, then mark dirty. -/
def World.addComponent (w : World) (eid : Nat) (name : String)
    (c : FieldMap) : World :=
  let e := w.ents eid
  let w₁ := { w with
    ents := Function.update w.ents eid
      { e with components := setAssoc e.components name c } }
  w₁.setSystemsDirty eid

/-- Entity.removeComponent: absent name is a silent no-op; otherwise delete
and mark dirty. -/
def World.removeComponent (w : World) (eid : Nat) (name : String) : World :=
  let e := w.ents eid
  match lookupAssoc e.components name with
  | none => w
  | some _ =>
      let w₁ := { w with
        ents := Function.update w.ents eid
          { e with components := eraseAssoc e.components name } }
      w₁.setSystemsDirty eid

/-- Entity.updateComponent: field-by-field shallow write onto the component
found at `name`.  When the name is absent, the JS property write
`component[key] = data[key]` on `undefined` throws on the first iteration,
so a nonempty field record is an error and an empty one falls through the
loop untouched.  No dirty marking on any path. -/
def EntityState.updateComponent (e : EntityState) (name : String)
    (data : FieldMap) : Except Unit EntityState :=
  match lookupAssoc e.components name with
  | none => if data.isEmpty then Except.ok e else Except.error ()
  | some c =>
      Except.ok { e with
        components := setAssoc e.components name
          (data.foldl (fun acc kv => setAssoc acc kv.1 kv.2) c) }

/-- Entity.updateComponent lifted to the world: the store is written back
only when the entity-level call succeeds (the JS exception propagates
before any coordinator state is touched). -/
def World.updateComponent (w : World) (eid : Nat) (name : String)
    (data : FieldMap) : Except Unit World :=
  match (w.ents eid).updateComponent name data with
  | Except.error err => Except.error err
  | Except.ok e => Except.ok { w with ents := Function.update w.ents eid e }

/-- Entity.addSystem: unconditional push onto the membership cache. -/
def World.entAddSystem (w : World) (eid sid : Nat) : World :=
  let e := w.ents eid
  { w with
    ents := Function.update w.ents eid
      { e with systems := e.systems ++ [sid] } }

/-- Entity.removeSystem: indexOf then fastSplice, no-op when absent. -/
def World.entRemoveSystem (w : World) (eid sid : Nat) : World :=
  let e := w.ents eid
  match jsIndexOf e.systems sid with
  | none => w
  | some i =>
      { w with
        ents := Function.update w.ents eid
          { e with systems := fastSplice e.systems i 1 } }

/-- System.addEntity: register on the entity cache, push onto the member
list, fire the enter hook. -/
def World.sysAddEntity (w : World) (sid eid : Nat) : World :=
  let w₁ := w.entAddSystem eid sid
  let s := w₁.sysStates sid
  { w₁ with
    sysStates := Function.update w₁.sysStates sid
      { s with entities := s.entities ++ [eid] },
    log := w₁.log ++ [Event.enter sid eid] }

/-- System.removeEntity: when the entity is found in the member list,
remove it from the entity cache, splice it out of the member list at the
index found, and fire the exit hook; otherwise do nothing. -/
def World.sysRemoveEntity (w : World) (sid eid : Nat) : World :=
  let s := w.sysStates sid
  match jsIndexOf s.entities eid with
  | none => w
  | some i =>
      let w₁ := w.entRemoveSystem eid sid
      { w₁ with
        sysStates := Function.update w₁.sysStates sid
          { s with entities := fastSplice s.entities i 1 },
        log := w₁.log ++ [Event.exit sid eid] }

/-- Loop body of System.dispose over a snapshot of the member list (the JS
loop iterates `this.entities`, which the body never mutates). -/
def sysDisposeFold (sid : Nat) (w : World) : List Nat → World
  | [] => w
  | eid :: rest =>
      let w₁ := w.entRemoveSystem eid sid
      sysDisposeFold sid { w₁ with log := w₁.log ++ [Event.exit sid eid] } rest

/-- System.dispose: exit every member entity, removing itself from each
entity cache.  The member list itself is not cleared by the source. -/
def World.sysDispose (w : World) (sid : Nat) : World :=
  sysDisposeFold sid w (w.sysStates sid).entities

/-- Entity.dispose inner loop, modelling the JS for..of over the live
`this.systems` array: the iterator holds an index `i`; each
`system.removeEntity(this)` call splices the current system out of that
same array, so the iteration sees the shrunk array.  The fuel (initial
length) bounds the loop because removeEntity never grows the array. -/
def entDisposeLoop (eid : Nat) (w : World) (i : Nat) : Nat → World
  | 0 => w
  | fuel + 1 =>
      if h : i < (w.ents eid).systems.length then
        entDisposeLoop eid
          (w.sysRemoveEntity ((w.ents eid).systems.get ⟨i, h⟩) eid) (i + 1) fuel
      else w

/-- Entity.dispose: ask every system in the (live) membership cache to
remove this entity. -/
def World.entDispose (w : World) (eid : Nat) : World :=
  entDisposeLoop eid w 0 (w.ents eid).systems.length

/-- Entity.addToECS: set the back-reference, then mark dirty. -/
def World.addToECS (w : World) (eid : Nat) : World :=
  let e := w.ents eid
  let w₁ := { w with
    ents := Function.update w.ents eid { e with inECS := true } }
  w₁.setSystemsDirty eid

/-- ECS.addEntity: push onto the population, then addToECS. -/
def World.addEntity (w : World) (eid : Nat) : World :=
  let w₁ := { w with entities := w.entities ++ [eid] }
  w₁.addToECS eid

/-- ECS.removeEntityIfDirty, faithful to the source: the index is looked up
in `entitiesSystemsDirty` but the splice is applied to `this.entities`
(the population), not to the dirty queue. -/
def World.removeEntityIfDirty (w : World) (eid : Nat) : World :=
  match jsIndexOf w.entitiesSystemsDirty eid with
  | none => w
  | some i => { w with entities := fastSplice w.entities i 1 }

/-- ECS.removeEntity: find the index in the population, dispose, run
removeEntityIfDirty, splice the population at the originally found index,
and return the removed entity; an unknown entity is a no-op returning the
not-found indicator.  ECS.removeEntityById scans for the same first index
by id, so in this identifier-based model it coincides with removeEntity. -/
def World.removeEntity (w : World) (eid : Nat) : World × Option Nat :=
  match jsIndexOf w.entities eid with
  | none => (w, none)
  | some i =>
      let w₁ := w.entDispose eid
      let w₂ := w₁.removeEntityIfDirty eid
      ({ w₂ with entities := fastSplice w₂.entities i 1 }, some eid)

/-- Back-fill step of ECS.addSystem: test one existing entity and add it
when eligible. -/
def backfillStep (sid : Nat) (w : World) (eid : Nat) : World :=
  if (w.sysStates sid).test (compNames (w.ents eid)) then
    w.sysAddEntity sid eid
  else w

/-- Back-fill loop of ECS.addSystem over a snapshot of the population (the
JS loop iterates `this.entities`, which sysAddEntity never mutates). -/
def backfillFold (sid : Nat) (w : World) : List Nat → World
  | [] => w
  | eid :: rest => backfillFold sid (backfillStep sid w eid) rest

/-- ECS.addSystem: push onto the systems list, then test every existing
entity against the new system and add the matches. -/
def World.addSystem (w : World) (sid : Nat) : World :=
  let w₁ := { w with systems := w.systems ++ [sid] }
  backfillFold sid w₁ w₁.entities

/-- ECS.removeSystem: splice out of the systems list when present, then
dispose the system. -/
def World.removeSystem (w : World) (sid : Nat) : World :=
  match jsIndexOf w.systems sid with
  | none => w
  | some i =>
      let w₁ := { w with systems := fastSplice w.systems i 1 }
      w₁.sysDispose sid

/-- One (entity, system) comparison of ECS.cleanDirtyEntities: membership
is probed on the entity cache (`entity.systems.indexOf(system)`), the
predicate on the current components; add when eligible and absent, remove
when present and no longer eligible. -/
def cleanStep (eid : Nat) (w : World) (sid : Nat) : World :=
  let inSys := (jsIndexOf (w.ents eid).systems sid).isSome
  let t := (w.sysStates sid).test (compNames (w.ents eid))
  if !inSys && t then w.sysAddEntity sid eid
  else if inSys && !t then w.sysRemoveEntity sid eid
  else w

/-- Inner loop of ECS.cleanDirtyEntities over the (unmutated) systems
list. -/
def cleanFold (eid : Nat) (w : World) : List Nat → World
  | [] => w
  | sid :: rest => cleanFold eid (cleanStep eid w sid) rest

/-- Per-entity body of ECS.cleanDirtyEntities: compare against every
active system, then clear the dirty flag. -/
def World.cleanEntity (w : World) (eid : Nat) : World :=
  let w₁ := cleanFold eid w w.systems
  let e := w₁.ents eid
  { w₁ with
    ents := Function.update w₁.ents eid { e with systemsDirty := false } }

/-- Outer loop of ECS.cleanDirtyEntities over a snapshot of the dirty
queue (nothing in the body pushes onto the queue: the abstract hooks are
observers and the bookkeeping calls never enqueue). -/
def cleanQueueFold (w : World) : List Nat → World
  | [] => w
  | eid :: rest => cleanQueueFold (w.cleanEntity eid) rest

/-- ECS.cleanDirtyEntities: process every queued entity, then replace the
queue by a fresh empty array. -/
def World.cleanDirtyEntities (w : World) : World :=
  let w₁ := cleanQueueFold w w.entitiesSystemsDirty
  { w₁ with entitiesSystemsDirty := [] }

/-- The frequency gate of ECS.update, `this.updateCounter % system.frequency
> 0`.  JS quirk kept: with frequency 0 the modulo is NaN and the comparison
is false, so a zero-frequency system never misses the gate. -/
def gateMiss (counter freq : Nat) : Bool :=
  if freq = 0 then false else decide (0 < counter % freq)

/-- Loop of ECS.update over the systems list: a frequency-gate miss breaks
out of the whole loop; otherwise a non-empty dirty queue is reconciled
before the system's updateAll runs (logged as a ran event). -/
def updateLoop (w : World) : List Nat → World
  | [] => w
  | sid :: rest =>
      if gateMiss w.updateCounter (w.sysStates sid).frequency then w
      else
        let w₁ := if w.entitiesSystemsDirty.isEmpty then w
                  else w.cleanDirtyEntities
        updateLoop { w₁ with log := w₁.log ++ [Event.ran sid] } rest

/-- ECS.update: run the gated loop, then advance the tick counter. -/
def World.update (w : World) : World :=
  let w₁ := updateLoop w w.systems
  { w₁ with updateCounter := w₁.updateCounter + 1 }

/-- The two-sided membership agreement of the data model: an entity is in a
registered system's member list iff the system is in the entity's
membership cache. -/
def Agree (w : World) : Prop :=
  ∀ eid sid, sid ∈ w.systems →
    (eid ∈ (w.sysStates sid).entities ↔ sid ∈ (w.ents eid).systems)

/-- Well-formedness: agreement plus duplicate-freedom of every member list
and every membership cache. -/
def WF (w : World) : Prop :=
  Agree w ∧ (∀ sid, (w.sysStates sid).entities.Nodup) ∧
    (∀ eid, (w.ents eid).systems.Nodup)

/-- A detached entity: no components, no memberships, clean, unattached. -/
def entDefault : EntityState := ⟨[], [], false, false⟩

/-- A fresh system: frequency 1, the default always-false predicate of the
source, no members. -/
def sysDefault : SysState := ⟨1, fun _ => false, []⟩

/-- The empty coordinator. -/
def W0 : World :=
  ⟨fun _ => entDefault, [], fun _ => sysDefault, [], [], 0, []⟩

/-- A coordinator with one registered system (id 1) owning one entity
(id 7); the two membership records agree. -/
def Wc : World :=
  { ents := Function.update (fun _ => entDefault) 7 ⟨[], [1], false, true⟩,
    entities := [7],
    sysStates := Function.update (fun _ => sysDefault) 1
      ⟨1, fun _ => false, [7]⟩,
    systems := [1],
    entitiesSystemsDirty := [],
    updateCounter := 0,
    log := [] }

/-- A coordinator with one dirty entity (id 5, owning component x) and one
registered system (id 3) whose predicate requires component x. -/
def Wd : World :=
  { ents := Function.update (fun _ => entDefault) 5
      ⟨[(("x"), [])], [], true, true⟩,
    entities := [5],
    sysStates := Function.update (fun _ => sysDefault) 3
      ⟨1, fun names => names.contains ("x"), []⟩,
    systems := [3],
    entitiesSystemsDirty := [5],
    updateCounter := 0,
    log := [] }

/-- Recognizer for updateAll invocations in the hook log. -/
def Event.isRan : Event → Bool
  | Event.ran _ => true
  | _ => false

/-- A coordinator in the state of Wd but whose only system has frequency 2
while the tick counter stands at 1: the first system misses its gate. -/
def We : World :=
  { Wd with
    sysStates := Function.update (fun _ => sysDefault) 3
      ⟨2, fun names => names.contains ("x"), []⟩,
    updateCounter := 1 }

/-- A coordinator holding entities 1 and 2 (in that order) with only
entity 2 queued dirty; no systems. -/
def W4 : World :=
  { ents := fun _ => ⟨[], [], true, true⟩,
    entities := [1, 2],
    sysStates := fun _ => sysDefault,
    systems := [],
    entitiesSystemsDirty := [2],
    updateCounter := 0,
    log := [] }

/-- A coordinator whose entity 7 belongs to systems 1 and 2, in that
registration order, with both member lists agreeing. -/
def W2 : World :=
  { ents := Function.update (fun _ => entDefault) 7 ⟨[], [1, 2], false, true⟩,
    entities := [7],
    sysStates := Function.update
      (Function.update (fun _ => sysDefault) 1 ⟨1, fun _ => false, [7]⟩) 2
      ⟨1, fun _ => false, [7]⟩,
    systems := [1, 2],
    entitiesSystemsDirty := [],
    updateCounter := 0,
    log := [] }

/-- The dirty-marking operations of the claim: an explicit setSystemsDirty,
addComponent, and removeComponent. -/
inductive DirtyOp where
  | mark
  | addComp (name : String) (c : FieldMap)
  | remComp (name : String)

/-- Apply one dirty-marking operation to the entity eid. -/
def applyDirtyOp (eid : Nat) (w : World) : DirtyOp → World
  | DirtyOp.mark => w.setSystemsDirty eid
  | DirtyOp.addComp n c => w.addComponent eid n c
  | DirtyOp.remComp n => w.removeComponent eid n

/-- Apply a sequence of dirty-marking operations in order. -/
def applyDirtyOps (eid : Nat) (w : World) : List DirtyOp → World
  | [] => w
  | op :: rest => applyDirtyOps eid (applyDirtyOp eid w op) rest

/-- The intermediate state of addComponent and removeComponent: the entity
component bag replaced, everything else untouched. -/
def withComponents (w : World) (eid : Nat)
    (m : List (String × FieldMap)) : World :=
  { w with
    ents := Function.update w.ents eid
      { w.ents eid with components := m } }

/-- A coordinator with registered system 1 (no members yet) and entity 7
attached but not yet a member of anything. -/
def Wb : World :=
  { ents := Function.update (fun _ => entDefault) 7 ⟨[], [], false, true⟩,
    entities := [7],
    sysStates := fun _ => sysDefault,
    systems := [1],
    entitiesSystemsDirty := [],
    updateCounter := 0,
    log := [] }

/-! ### Theorems -/

theorem jsIndexOf_eq_none {l : List Nat} {x : Nat} :
    jsIndexOf l x = none ↔ x ∉ l := by
  induction l with
  | nil => simp [jsIndexOf]
  | cons y rest ih =>
      simp only [jsIndexOf, List.mem_cons]
      by_cases h : y = x
      · simp [h]
      · simp [h, Option.map_eq_none', ih, Ne.symm h]

theorem jsIndexOf_isSome_of_mem {l : List Nat} {x : Nat} (h : x ∈ l) :
    ∃ i, jsIndexOf l x = some i := by
  cases hr : jsIndexOf l x with
  | none => exact absurd h (jsIndexOf_eq_none.mp hr)
  | some i => exact ⟨i, rfl⟩

theorem fastSplice_cons_succ {α : Type} (y : α) (l : List α) (i : Nat) :
    fastSplice (y :: l) (i + 1) 1 = y :: fastSplice l i 1 := by
  by_cases h : i ≥ l.length
  · simp [fastSplice, h, Nat.succ_le_succ h]
  · have h1 : ¬(i + 1 ≥ (y :: l).length) := by
      simp only [List.length_cons]; omega
    simp [fastSplice, h, h1, List.take_succ_cons, List.drop_succ_cons]

theorem fastSplice_jsIndexOf {l : List Nat} {x : Nat} {i : Nat}
    (h : jsIndexOf l x = some i) : fastSplice l i 1 = l.erase x := by
  induction l generalizing i with
  | nil => simp [jsIndexOf] at h
  | cons y rest ih =>
      by_cases hy : y = x
      · subst hy
        simp [jsIndexOf] at h
        subst h
        simp [fastSplice, List.erase_cons_head]
      · simp only [jsIndexOf, if_neg hy] at h
        cases hr : jsIndexOf rest x with
        | none => rw [hr] at h; cases h
        | some j =>
            rw [hr] at h
            simp only [Option.map_some', Option.some.injEq] at h
            subst h
            rw [fastSplice_cons_succ, ih hr, List.erase_cons_tail]
            simp [hy]

theorem entRemoveSystem_eq (w : World) (eid sid : Nat) :
    w.entRemoveSystem eid sid =
      { w with
        ents := Function.update w.ents eid
          ({ w.ents eid with systems := (w.ents eid).systems.erase sid }) } := by
  unfold World.entRemoveSystem
  cases h : jsIndexOf (w.ents eid).systems sid with
  | none =>
      have hnm : sid ∉ (w.ents eid).systems := jsIndexOf_eq_none.mp h
      simp [h, List.erase_of_not_mem hnm, Function.update_eq_self]
  | some i => simp [h, fastSplice_jsIndexOf h]

theorem sysRemoveEntity_not_mem {w : World} {sid eid : Nat}
    (h : eid ∉ (w.sysStates sid).entities) : w.sysRemoveEntity sid eid = w := by
  unfold World.sysRemoveEntity
  simp [jsIndexOf_eq_none.mpr h]

theorem sysRemoveEntity_mem {w : World} {sid eid : Nat}
    (h : eid ∈ (w.sysStates sid).entities) :
    w.sysRemoveEntity sid eid =
      { w with
        ents := Function.update w.ents eid
          ({ w.ents eid with systems := (w.ents eid).systems.erase sid }),
        sysStates := Function.update w.sysStates sid
          ({ w.sysStates sid with entities := (w.sysStates sid).entities.erase eid }),
        log := w.log ++ [Event.exit sid eid] } := by
  obtain ⟨i, hi⟩ := jsIndexOf_isSome_of_mem h
  unfold World.sysRemoveEntity
  simp only [hi, fastSplice_jsIndexOf hi, entRemoveSystem_eq]

theorem sysAddEntity_eq (w : World) (sid eid : Nat) :
    w.sysAddEntity sid eid =
      { w with
        ents := Function.update w.ents eid
          ({ w.ents eid with systems := (w.ents eid).systems ++ [sid] }),
        sysStates := Function.update w.sysStates sid
          ({ w.sysStates sid with entities := (w.sysStates sid).entities ++ [eid] }),
        log := w.log ++ [Event.enter sid eid] } := rfl

theorem jsIndexOf_isSome_iff {l : List Nat} {x : Nat} :
    (jsIndexOf l x).isSome = true ↔ x ∈ l := by
  cases h : jsIndexOf l x with
  | none => simpa using jsIndexOf_eq_none.mp h
  | some i =>
      simp only [Option.isSome_some, true_iff]
      by_contra hnm
      rw [jsIndexOf_eq_none.mpr hnm] at h
      cases h

theorem sysAddEntity_systems (w : World) (sid eid : Nat) :
    (w.sysAddEntity sid eid).systems = w.systems := rfl

theorem sysRemoveEntity_systems (w : World) (sid eid : Nat) :
    (w.sysRemoveEntity sid eid).systems = w.systems := by
  unfold World.sysRemoveEntity
  cases h : jsIndexOf (w.sysStates sid).entities eid <;> simp [h, World.entRemoveSystem]
  case some i =>
    cases h2 : jsIndexOf ((w.ents eid).systems) sid <;> simp [h2]

theorem WF_of_shape {w w₁ : World} (hwf : WF w)
    (hsys : ∀ e, (w₁.ents e).systems = (w.ents e).systems)
    (hstates : w₁.sysStates = w.sysStates)
    (hlist : w₁.systems = w.systems) : WF w₁ := by
  obtain ⟨hag, hns, hne⟩ := hwf
  refine ⟨?_, ?_, ?_⟩
  · intro eid sid hs
    rw [hsys, hstates]
    exact hag eid sid (hlist ▸ hs)
  · intro sid; rw [hstates]; exact hns sid
  · intro eid; rw [hsys]; exact hne eid

theorem sysAddEntity_WF {w : World} {sid eid : Nat} (hwf : WF w)
    (h1 : eid ∉ (w.sysStates sid).entities)
    (h2 : sid ∉ (w.ents eid).systems) : WF (w.sysAddEntity sid eid) := by
  obtain ⟨hag, hns, hne⟩ := hwf
  rw [sysAddEntity_eq]
  refine ⟨?_, ?_, ?_⟩
  · intro e s hs
    have hs0 : s ∈ w.systems := hs
    simp only [Function.update_apply]
    by_cases hsd : s = sid
    · rw [if_pos hsd]
      by_cases he : e = eid
      · rw [if_pos he]
        subst hsd; subst he
        simp
      · rw [if_neg he]
        subst hsd
        simp only [List.mem_append, List.mem_singleton, he, or_false]
        exact hag e s hs0
    · rw [if_neg hsd]
      by_cases he : e = eid
      · rw [if_pos he]
        subst he
        simp only [List.mem_append, List.mem_singleton, hsd, or_false]
        exact hag e s hs0
      · rw [if_neg he]
        exact hag e s hs0
  · intro s
    simp only [Function.update_apply]
    by_cases hsd : s = sid
    · rw [if_pos hsd]
      subst hsd
      simp [List.nodup_append, hns s, h1]
    · rw [if_neg hsd]
      exact hns s
  · intro e
    simp only [Function.update_apply]
    by_cases he : e = eid
    · rw [if_pos he]
      subst he
      simp [List.nodup_append, hne e, h2]
    · rw [if_neg he]
      exact hne e

theorem sysRemoveEntity_WF {w : World} {sid eid : Nat} (hwf : WF w) :
    WF (w.sysRemoveEntity sid eid) := by
  by_cases hm : eid ∈ (w.sysStates sid).entities
  · obtain ⟨hag, hns, hne⟩ := hwf
    rw [sysRemoveEntity_mem hm]
    refine ⟨?_, ?_, ?_⟩
    · intro e s hs
      have hs0 : s ∈ w.systems := hs
      simp only [Function.update_apply]
      by_cases hsd : s = sid
      · rw [if_pos hsd]
        by_cases he : e = eid
        · rw [if_pos he]
          subst hsd; subst he
          simp only [(hns s).not_mem_erase, false_iff]
          exact (hne e).not_mem_erase
        · rw [if_neg he]
          subst hsd
          rw [List.mem_erase_of_ne he]
          exact hag e s hs0
      · rw [if_neg hsd]
        by_cases he : e = eid
        · rw [if_pos he]
          subst he
          rw [List.mem_erase_of_ne hsd]
          exact hag e s hs0
        · rw [if_neg he]
          exact hag e s hs0
    · intro s
      simp only [Function.update_apply]
      by_cases hsd : s = sid
      · rw [if_pos hsd]
        exact (hns sid).erase eid
      · rw [if_neg hsd]
        exact hns s
    · intro e
      simp only [Function.update_apply]
      by_cases he : e = eid
      · rw [if_pos he]
        exact (hne eid).erase sid
      · rw [if_neg he]
        exact hne e
  · rw [sysRemoveEntity_not_mem hm]
    exact hwf

theorem entDisposeLoop_WF (eid : Nat) :
    ∀ (fuel : Nat) (w : World) (i : Nat), WF w →
      WF (entDisposeLoop eid w i fuel) := by
  intro fuel
  induction fuel with
  | zero => intro w i hwf; exact hwf
  | succ n ih =>
      intro w i hwf
      unfold entDisposeLoop
      split
      · exact ih _ _ (sysRemoveEntity_WF hwf)
      · exact hwf

theorem entDispose_WF {w : World} {eid : Nat} (hwf : WF w) :
    WF (w.entDispose eid) :=
  entDisposeLoop_WF eid _ w 0 hwf

theorem removeEntityIfDirty_WF {w : World} {eid : Nat} (hwf : WF w) :
    WF (w.removeEntityIfDirty eid) := by
  unfold World.removeEntityIfDirty
  cases h : jsIndexOf w.entitiesSystemsDirty eid with
  | none => exact hwf
  | some i => exact WF_of_shape hwf (fun _ => rfl) rfl rfl

theorem removeEntity_WF {w : World} {eid : Nat} (hwf : WF w) :
    WF (w.removeEntity eid).1 := by
  unfold World.removeEntity
  cases h : jsIndexOf w.entities eid with
  | none => exact hwf
  | some i =>
      exact WF_of_shape (removeEntityIfDirty_WF (entDispose_WF hwf))
        (fun _ => rfl) rfl rfl

theorem setSystemsDirty_pos {w : World} {eid : Nat}
    (h1 : (w.ents eid).systemsDirty = false) (h2 : (w.ents eid).inECS = true) :
    w.setSystemsDirty eid =
      { w with
        ents := Function.update w.ents eid
          ({ w.ents eid with systemsDirty := true }),
        entitiesSystemsDirty := w.entitiesSystemsDirty ++ [eid] } := by
  unfold World.setSystemsDirty
  rw [if_pos]
  simp [h1, h2]

theorem setSystemsDirty_neg {w : World} {eid : Nat}
    (h : (w.ents eid).systemsDirty = true ∨ (w.ents eid).inECS = false) :
    w.setSystemsDirty eid = w := by
  unfold World.setSystemsDirty
  rw [if_neg]
  rcases h with h | h <;> simp [h]

theorem setSystemsDirty_WF {w : World} {eid : Nat} (hwf : WF w) :
    WF (w.setSystemsDirty eid) := by
  by_cases hd : (w.ents eid).systemsDirty = true
  · rw [setSystemsDirty_neg (Or.inl hd)]
    exact hwf
  · have hd₁ : (w.ents eid).systemsDirty = false := by simpa using hd
    by_cases hi : (w.ents eid).inECS = true
    · rw [setSystemsDirty_pos hd₁ hi]
      refine WF_of_shape hwf (fun e => ?_) rfl rfl
      simp only [Function.update_apply]
      split
      · next he => subst he; rfl
      · rfl
    · rw [setSystemsDirty_neg (Or.inr (by simpa using hi))]
      exact hwf

theorem cleanStep_WF {w : World} {eid sid : Nat} (hwf : WF w)
    (hs : sid ∈ w.systems) : WF (cleanStep eid w sid) := by
  unfold cleanStep
  cases hmem : (jsIndexOf (w.ents eid).systems sid).isSome with
  | false =>
      have hnm : sid ∉ (w.ents eid).systems := by
        intro hc
        rw [jsIndexOf_isSome_iff.mpr hc] at hmem
        cases hmem
      cases ht : (w.sysStates sid).test (compNames (w.ents eid)) with
      | false => simpa [hmem, ht] using hwf
      | true =>
          have h1 : eid ∉ (w.sysStates sid).entities :=
            fun hc => hnm ((hwf.1 eid sid hs).mp hc)
          simpa [hmem, ht] using sysAddEntity_WF hwf h1 hnm
  | true =>
      cases ht : (w.sysStates sid).test (compNames (w.ents eid)) with
      | false => simpa [hmem, ht] using sysRemoveEntity_WF hwf
      | true => simpa [hmem, ht] using hwf

theorem cleanStep_systems (eid : Nat) (w : World) (sid : Nat) :
    (cleanStep eid w sid).systems = w.systems := by
  unfold cleanStep
  cases hmem : (jsIndexOf (w.ents eid).systems sid).isSome <;>
    cases ht : (w.sysStates sid).test (compNames (w.ents eid)) <;>
      simp [hmem, ht, sysAddEntity_systems, sysRemoveEntity_systems]

theorem cleanFold_WF (eid : Nat) :
    ∀ (l : List Nat) (w : World), WF w → (∀ s ∈ l, s ∈ w.systems) →
      WF (cleanFold eid w l) := by
  intro l
  induction l with
  | nil => intro w hwf _; exact hwf
  | cons s tl ih =>
      intro w hwf hsub
      unfold cleanFold
      refine ih _ (cleanStep_WF hwf (hsub s (List.mem_cons_self s tl))) ?_
      intro s₁ hs₁
      rw [cleanStep_systems]
      exact hsub s₁ (List.mem_cons_of_mem _ hs₁)

theorem cleanFold_systems (eid : Nat) :
    ∀ (l : List Nat) (w : World), (cleanFold eid w l).systems = w.systems := by
  intro l
  induction l with
  | nil => intro w; rfl
  | cons s tl ih =>
      intro w
      unfold cleanFold
      rw [ih, cleanStep_systems]

theorem cleanEntity_WF {w : World} {eid : Nat} (hwf : WF w) :
    WF (w.cleanEntity eid) := by
  unfold World.cleanEntity
  refine WF_of_shape (cleanFold_WF eid w.systems w hwf (fun _ h => h))
    (fun e => ?_) rfl rfl
  simp only [Function.update_apply]
  split
  · next he => subst he; rfl
  · rfl

theorem cleanEntity_systems (w : World) (eid : Nat) :
    (w.cleanEntity eid).systems = w.systems := by
  unfold World.cleanEntity
  exact cleanFold_systems eid w.systems w

theorem cleanQueueFold_WF :
    ∀ (q : List Nat) (w : World), WF w → WF (cleanQueueFold w q) := by
  intro q
  induction q with
  | nil => intro w hwf; exact hwf
  | cons e tl ih =>
      intro w hwf
      exact ih _ (cleanEntity_WF hwf)

theorem cleanDirtyEntities_WF {w : World} (hwf : WF w) :
    WF w.cleanDirtyEntities := by
  unfold World.cleanDirtyEntities
  exact WF_of_shape (cleanQueueFold_WF w.entitiesSystemsDirty w hwf)
    (fun _ => rfl) rfl rfl

theorem entRemoveSystem_WF_unreg {w : World} {eid sid : Nat} (hwf : WF w)
    (hsid : sid ∉ w.systems) : WF (w.entRemoveSystem eid sid) := by
  obtain ⟨hag, hns, hne⟩ := hwf
  rw [entRemoveSystem_eq]
  refine ⟨?_, ?_, ?_⟩
  · intro e s hs
    have hs0 : s ∈ w.systems := hs
    simp only [Function.update_apply]
    by_cases he : e = eid
    · rw [if_pos he]
      subst he
      have hne₂ : s ≠ sid := by
        intro hc
        subst hc
        exact hsid hs0
      rw [List.mem_erase_of_ne hne₂]
      exact hag e s hs0
    · rw [if_neg he]
      exact hag e s hs0
  · exact hns
  · intro e
    simp only [Function.update_apply]
    by_cases he : e = eid
    · rw [if_pos he]
      exact (hne eid).erase sid
    · rw [if_neg he]
      exact hne e

theorem sysDisposeFold_WF (sid : Nat) :
    ∀ (l : List Nat) (w : World), WF w → sid ∉ w.systems →
      WF (sysDisposeFold sid w l) := by
  intro l
  induction l with
  | nil => intro w hwf _; exact hwf
  | cons e tl ih =>
      intro w hwf hsid
      unfold sysDisposeFold
      refine ih _ (WF_of_shape (entRemoveSystem_WF_unreg hwf hsid)
        (fun _ => rfl) rfl rfl) ?_
      rw [entRemoveSystem_eq]
      exact hsid

theorem removeSystem_WF {w : World} {sid : Nat} (hwf : WF w)
    (hnd : w.systems.Nodup) : WF (w.removeSystem sid) := by
  unfold World.removeSystem
  cases h : jsIndexOf w.systems sid with
  | none => exact hwf
  | some i =>
      dsimp only
      rw [fastSplice_jsIndexOf h]
      unfold World.sysDispose
      refine sysDisposeFold_WF sid _ _ ⟨?_, hwf.2.1, hwf.2.2⟩ hnd.not_mem_erase
      intro eid s hs
      exact hwf.1 eid s (List.mem_of_mem_erase hs)

theorem regSystem_WF {w : World} {sid : Nat} (hwf : WF w)
    (hf1 : (w.sysStates sid).entities = [])
    (hf2 : ∀ e, sid ∉ (w.ents e).systems) :
    WF { w with systems := w.systems ++ [sid] } := by
  obtain ⟨hag, hns, hne⟩ := hwf
  refine ⟨?_, hns, hne⟩
  intro e s hs
  rcases List.mem_append.mp hs with hs | hs
  · exact hag e s hs
  · rw [List.mem_singleton.mp hs, hf1]
    simp [hf2 e]

theorem backfillFold_WF (sid : Nat) :
    ∀ (l : List Nat) (w : World), WF w → l.Nodup →
      (∀ e ∈ l, e ∉ (w.sysStates sid).entities ∧ sid ∉ (w.ents e).systems) →
      WF (backfillFold sid w l) := by
  intro l
  induction l with
  | nil => intro w hwf _ _; exact hwf
  | cons e₀ tl ih =>
      intro w hwf hnd hl
      obtain ⟨h1, h2⟩ := hl e₀ (List.mem_cons_self e₀ tl)
      unfold backfillFold
      unfold backfillStep
      cases ht : (w.sysStates sid).test (compNames (w.ents e₀)) with
      | false =>
          simp only [ht, if_false, Bool.false_eq_true]
          exact ih _ hwf (List.Nodup.of_cons hnd)
            (fun e he => hl e (List.mem_cons_of_mem _ he))
      | true =>
          simp only [ht, if_true]
          refine ih _ (sysAddEntity_WF hwf h1 h2) (List.Nodup.of_cons hnd) ?_
          intro e he
          have hne₀ : e ≠ e₀ := fun hc =>
            (List.nodup_cons.mp hnd).1 (hc ▸ he)
          rw [sysAddEntity_eq]
          constructor
          · simp only [Function.update_same, List.mem_append,
              List.mem_singleton]
            rintro (hc | hc)
            · exact (hl e (List.mem_cons_of_mem _ he)).1 hc
            · exact hne₀ hc
          · simp only [Function.update_apply, if_neg hne₀]
            exact (hl e (List.mem_cons_of_mem _ he)).2

theorem addSystem_WF {w : World} {sid : Nat} (hwf : WF w)
    (hf1 : (w.sysStates sid).entities = [])
    (hf2 : ∀ e, sid ∉ (w.ents e).systems)
    (hpop : w.entities.Nodup) : WF (w.addSystem sid) := by
  unfold World.addSystem
  exact backfillFold_WF sid w.entities _ (regSystem_WF hwf hf1 hf2) hpop
    (fun e _ => ⟨by rw [hf1]; exact List.not_mem_nil e, hf2 e⟩)

theorem addToECS_WF {w : World} {eid : Nat} (hwf : WF w) :
    WF (w.addToECS eid) := by
  unfold World.addToECS
  refine setSystemsDirty_WF (WF_of_shape hwf (fun e => ?_) rfl rfl)
  simp only [Function.update_apply]
  split
  · next he => subst he; rfl
  · rfl

theorem addEntity_WF {w : World} {eid : Nat} (hwf : WF w) :
    WF (w.addEntity eid) := by
  unfold World.addEntity
  exact addToECS_WF (WF_of_shape hwf (fun _ => rfl) rfl rfl)

theorem sysDisposeFold_spec (sid : Nat) :
    ∀ (l : List Nat) (w : World), l.Nodup →
      (∀ e ∈ l, (sysDisposeFold sid w l).ents e =
        ({ w.ents e with systems := (w.ents e).systems.erase sid })) ∧
      (∀ e, e ∉ l → (sysDisposeFold sid w l).ents e = w.ents e) ∧
      (sysDisposeFold sid w l).sysStates = w.sysStates ∧
      (sysDisposeFold sid w l).systems = w.systems ∧
      (sysDisposeFold sid w l).entities = w.entities ∧
      (sysDisposeFold sid w l).entitiesSystemsDirty =
        w.entitiesSystemsDirty ∧
      (sysDisposeFold sid w l).log = w.log ++ l.map (Event.exit sid) := by
  intro l
  induction l with
  | nil =>
      intro w _
      refine ⟨fun e he => absurd he (List.not_mem_nil e), fun _ _ => rfl,
        rfl, rfl, rfl, rfl, by simp [sysDisposeFold]⟩
  | cons e₀ tl ih =>
      intro w hnd
      have he₀ : e₀ ∉ tl := (List.nodup_cons.mp hnd).1
      unfold sysDisposeFold
      rw [entRemoveSystem_eq]
      obtain ⟨ih1, ih2, ih3, ih4, ih5, ih6, ih7⟩ := ih _ (List.Nodup.of_cons hnd)
      refine ⟨?_, ?_, by rw [ih3], by rw [ih4], by rw [ih5], by rw [ih6], ?_⟩
      · intro e he
        rcases List.mem_cons.mp he with he | he
        · subst he
          rw [ih2 e he₀]
          simp [Function.update_same]
        · have hne : e ≠ e₀ := fun hc => he₀ (hc ▸ he)
          rw [ih1 e he]
          simp [Function.update_apply, if_neg hne]
      · intro e he
        have hne : e ≠ e₀ := fun hc => he (hc ▸ List.mem_cons_self e₀ tl)
        rw [ih2 e (fun hc => he (List.mem_cons_of_mem _ hc))]
        simp [Function.update_apply, if_neg hne]
      · rw [ih7]
        simp

theorem WF_W0 : WF W0 := by
  refine ⟨?_, ?_, ?_⟩
  · intro eid sid hs
    exact absurd hs (List.not_mem_nil sid)
  · intro sid
    exact List.nodup_nil
  · intro eid
    exact List.nodup_nil

/-- C1 counterexample: System.dispose is a public operation (listed in the
claim via src/system.ts dispose), yet calling it on a system that stays
registered in the coordinator leaves the two membership records in
disagreement: the system list still registers system 1, system 1's member
list still contains entity 7, but entity 7's membership cache is empty. -/
theorem c1_counterexample_sysDispose :
    (Wc.sysDispose 1).systems = [1] ∧
    ((Wc.sysDispose 1).sysStates 1).entities = [7] ∧
    ((Wc.sysDispose 1).ents 7).systems = [] := by decide

/-- C1 (amended): in a well-formed world (agreement plus duplicate-free
membership lists), the agreement invariant is preserved on return by the
public operations ECS.addEntity, ECS.removeEntity, Entity.dispose,
reconciliation (cleanDirtyEntities), ECS.addSystem (for a fresh system,
with a duplicate-free population), and ECS.removeSystem (with a
duplicate-free systems list).  System.dispose alone is excluded: it clears
only the entity-side caches and leaves the system's member list intact, so
it restores agreement only combined with unregistration as in
removeSystem. -/
theorem c1_agreement_preserved (w : World) (eid sid : Nat) (hwf : WF w)
    (hf1 : (w.sysStates sid).entities = [])
    (hf2 : ∀ e, sid ∉ (w.ents e).systems)
    (hpop : w.entities.Nodup) (hsl : w.systems.Nodup) :
    WF (w.addEntity eid) ∧ WF (w.removeEntity eid).1 ∧
    WF (w.entDispose eid) ∧ WF w.cleanDirtyEntities ∧
    WF (w.addSystem sid) ∧ WF (w.removeSystem sid) :=
  ⟨addEntity_WF hwf, removeEntity_WF hwf, entDispose_WF hwf,
    cleanDirtyEntities_WF hwf, addSystem_WF hwf hf1 hf2 hpop,
    removeSystem_WF hwf hsl⟩

/-- Witness for C1 at the empty coordinator. -/
theorem c1_agreement_preserved_witness :
    WF W0 ∧
    (WF (W0.addEntity 0) ∧ WF (W0.removeEntity 0).1 ∧
     WF (W0.entDispose 0) ∧ WF W0.cleanDirtyEntities ∧
     WF (W0.addSystem 0) ∧ WF (W0.removeSystem 0)) :=
  ⟨WF_W0,
    c1_agreement_preserved W0 0 0 WF_W0 rfl
      (fun _ => List.not_mem_nil 0) List.nodup_nil List.nodup_nil⟩

/-- C6 counterexample: disposing a system that owns entity 7 fires the exit
hook and clears the entity cache, but the system's own member-entity list
is left as it was (still [7]), not emptied as the claim states. -/
theorem c6_counterexample_member_list_kept :
    ((Wc.sysDispose 1).sysStates 1).entities = [7] ∧
    (Wc.sysDispose 1).log = [Event.exit 1 7] := by decide

/-- C6 (amended): disposing a system, directly or via ECS.removeSystem,
fires the exit hook exactly once per member entity (in member-list order)
and removes the system from each such entity's membership cache, but the
system's own member-entity list is left unchanged, not emptied;
removeSystem additionally unregisters the system from the systems list. -/
theorem c6_dispose_effects (w : World) (sid : Nat) (hwf : WF w)
    (hreg : sid ∈ w.systems) :
    (w.sysDispose sid).log =
      w.log ++ (w.sysStates sid).entities.map (Event.exit sid) ∧
    (∀ e ∈ (w.sysStates sid).entities,
      sid ∉ ((w.sysDispose sid).ents e).systems) ∧
    ((w.sysDispose sid).sysStates sid).entities =
      (w.sysStates sid).entities ∧
    (w.removeSystem sid).systems = w.systems.erase sid ∧
    (w.removeSystem sid).log =
      w.log ++ (w.sysStates sid).entities.map (Event.exit sid) ∧
    (∀ e ∈ (w.sysStates sid).entities,
      sid ∉ ((w.removeSystem sid).ents e).systems) ∧
    ((w.removeSystem sid).sysStates sid).entities =
      (w.sysStates sid).entities := by
  obtain ⟨hag, hns, hne⟩ := hwf
  obtain ⟨i, hi⟩ := jsIndexOf_isSome_of_mem hreg
  have hrs : w.removeSystem sid =
      sysDisposeFold sid { w with systems := w.systems.erase sid }
        (w.sysStates sid).entities := by
    unfold World.removeSystem
    rw [hi]
    dsimp only
    rw [fastSplice_jsIndexOf hi]
    rfl
  obtain ⟨d1, d2, d3, d4, d5, d6, d7⟩ :=
    sysDisposeFold_spec sid (w.sysStates sid).entities w (hns sid)
  obtain ⟨e1, e2, e3, e4, e5, e6, e7⟩ :=
    sysDisposeFold_spec sid (w.sysStates sid).entities
      { w with systems := w.systems.erase sid } (hns sid)
  refine ⟨?_, ?_, ?_, ?_, ?_, ?_, ?_⟩
  · exact d7
  · intro e he
    unfold World.sysDispose
    rw [d1 e he]
    exact (hne e).not_mem_erase
  · unfold World.sysDispose
    rw [d3]
  · rw [hrs, e4]
  · rw [hrs, e7]
  · intro e he
    rw [hrs, e1 e he]
    exact (hne e).not_mem_erase
  · rw [hrs, e3]

/-- Witness for C6 at the one-system one-member world. -/
theorem c6_dispose_effects_witness :
    WF Wc ∧
    ((Wc.sysDispose 1).log =
      Wc.log ++ (Wc.sysStates 1).entities.map (Event.exit 1) ∧
    (∀ e ∈ (Wc.sysStates 1).entities,
      1 ∉ ((Wc.sysDispose 1).ents e).systems) ∧
    ((Wc.sysDispose 1).sysStates 1).entities = (Wc.sysStates 1).entities ∧
    (Wc.removeSystem 1).systems = Wc.systems.erase 1 ∧
    (Wc.removeSystem 1).log =
      Wc.log ++ (Wc.sysStates 1).entities.map (Event.exit 1) ∧
    (∀ e ∈ (Wc.sysStates 1).entities,
      1 ∉ ((Wc.removeSystem 1).ents e).systems) ∧
    ((Wc.removeSystem 1).sysStates 1).entities =
      (Wc.sysStates 1).entities) := by
  have hwf : WF Wc := by
    refine ⟨?_, ?_, ?_⟩
    · intro eid sid hs
      have hs1 : sid = 1 := by
        rcases List.mem_singleton.mp hs with h
        exact h
      subst hs1
      by_cases he : eid = 7
      · subst he; decide
      · simp [Wc, Function.update_apply, if_neg he, entDefault]
        exact he
    · intro sid
      by_cases hs : sid = 1
      · subst hs; decide
      · simp [Wc, Function.update_apply, if_neg hs, sysDefault]
    · intro eid
      by_cases he : eid = 7
      · subst he; decide
      · simp [Wc, Function.update_apply, if_neg he, entDefault]
  exact ⟨hwf, c6_dispose_effects Wc 1 hwf (by decide)⟩

theorem compNames_congr {e₁ e₂ : EntityState}
    (h : e₁.components = e₂.components) : compNames e₁ = compNames e₂ := by
  unfold compNames
  rw [h]

theorem cleanStep_spec {w : World} {eid sid : Nat} (hwf : WF w)
    (hs : sid ∈ w.systems) :
    WF (cleanStep eid w sid) ∧
    ((eid ∈ ((cleanStep eid w sid).sysStates sid).entities) ↔
      (w.sysStates sid).test (compNames (w.ents eid)) = true) ∧
    (∀ e, ((cleanStep eid w sid).ents e).components =
            (w.ents e).components ∧
          ((cleanStep eid w sid).ents e).systemsDirty =
            (w.ents e).systemsDirty ∧
          ((cleanStep eid w sid).ents e).inECS = (w.ents e).inECS) ∧
    (∀ e, e ≠ eid → (cleanStep eid w sid).ents e = w.ents e) ∧
    (∀ s, ((cleanStep eid w sid).sysStates s).frequency =
            (w.sysStates s).frequency ∧
          ((cleanStep eid w sid).sysStates s).test = (w.sysStates s).test) ∧
    (∀ s e, e ≠ eid →
      ((e ∈ ((cleanStep eid w sid).sysStates s).entities) ↔
        e ∈ (w.sysStates s).entities)) ∧
    (∀ s, s ≠ sid → (cleanStep eid w sid).sysStates s = w.sysStates s) ∧
    ((cleanStep eid w sid).systems = w.systems ∧
     (cleanStep eid w sid).entities = w.entities ∧
     (cleanStep eid w sid).entitiesSystemsDirty = w.entitiesSystemsDirty ∧
     (cleanStep eid w sid).updateCounter = w.updateCounter) := by
  obtain ⟨hag, hns, hne⟩ := hwf
  cases hmem : (jsIndexOf (w.ents eid).systems sid).isSome with
  | true =>
      have hin : sid ∈ (w.ents eid).systems := jsIndexOf_isSome_iff.mp hmem
      have hment : eid ∈ (w.sysStates sid).entities :=
        (hag eid sid hs).mpr hin
      cases ht : (w.sysStates sid).test (compNames (w.ents eid)) with
      | true =>
          have hstep : cleanStep eid w sid = w := by
            unfold cleanStep
            simp [hmem, ht]
          rw [hstep]
          refine ⟨⟨hag, hns, hne⟩, by simp [hment, ht],
            fun e => ⟨rfl, rfl, rfl⟩, fun e _ => rfl,
            fun s => ⟨rfl, rfl⟩, fun s e _ => Iff.rfl, fun s _ => rfl,
            rfl, rfl, rfl, rfl⟩
      | false =>
          have hstep : cleanStep eid w sid = w.sysRemoveEntity sid eid := by
            unfold cleanStep
            simp [hmem, ht]
          rw [hstep, sysRemoveEntity_mem hment]
          refine ⟨?_, ?_, ?_, ?_, ?_, ?_, ?_, rfl, rfl, rfl, rfl⟩
          · rw [← sysRemoveEntity_mem hment]
            exact sysRemoveEntity_WF ⟨hag, hns, hne⟩
          · simp [Function.update_same, (hns sid).not_mem_erase, ht]
          · intro e
            simp only [Function.update_apply]
            split
            · next he => subst he; exact ⟨rfl, rfl, rfl⟩
            · exact ⟨rfl, rfl, rfl⟩
          · intro e he
            simp only [Function.update_apply, if_neg he]
          · intro s
            simp only [Function.update_apply]
            split
            · next hsd => subst hsd; exact ⟨rfl, rfl⟩
            · exact ⟨rfl, rfl⟩
          · intro s e he
            simp only [Function.update_apply]
            split
            · next hsd =>
                subst hsd
                exact List.mem_erase_of_ne he
            · exact Iff.rfl
          · intro s hsd
            simp only [Function.update_apply, if_neg hsd]
  | false =>
      have hnin : sid ∉ (w.ents eid).systems := by
        intro hc
        rw [jsIndexOf_isSome_iff.mpr hc] at hmem
        cases hmem
      have hnent : eid ∉ (w.sysStates sid).entities :=
        fun hc => hnin ((hag eid sid hs).mp hc)
      cases ht : (w.sysStates sid).test (compNames (w.ents eid)) with
      | false =>
          have hstep : cleanStep eid w sid = w := by
            unfold cleanStep
            simp [hmem, ht]
          rw [hstep]
          refine ⟨⟨hag, hns, hne⟩, by simp [hnent, ht],
            fun e => ⟨rfl, rfl, rfl⟩, fun e _ => rfl,
            fun s => ⟨rfl, rfl⟩, fun s e _ => Iff.rfl, fun s _ => rfl,
            rfl, rfl, rfl, rfl⟩
      | true =>
          have hstep : cleanStep eid w sid = w.sysAddEntity sid eid := by
            unfold cleanStep
            simp [hmem, ht]
          rw [hstep, sysAddEntity_eq]
          refine ⟨?_, ?_, ?_, ?_, ?_, ?_, ?_, rfl, rfl, rfl, rfl⟩
          · rw [← sysAddEntity_eq]
            exact sysAddEntity_WF ⟨hag, hns, hne⟩ hnent hnin
          · simp [Function.update_same, ht]
          · intro e
            simp only [Function.update_apply]
            split
            · next he => subst he; exact ⟨rfl, rfl, rfl⟩
            · exact ⟨rfl, rfl, rfl⟩
          · intro e he
            simp only [Function.update_apply, if_neg he]
          · intro s
            simp only [Function.update_apply]
            split
            · next hsd => subst hsd; exact ⟨rfl, rfl⟩
            · exact ⟨rfl, rfl⟩
          · intro s e he
            simp only [Function.update_apply]
            split
            · next hsd =>
                subst hsd
                simp [List.mem_append, he]
            · exact Iff.rfl
          · intro s hsd
            simp only [Function.update_apply, if_neg hsd]

theorem cleanFold_spec (eid : Nat) :
    ∀ (l : List Nat) (w : World), WF w → l.Nodup →
      (∀ s ∈ l, s ∈ w.systems) →
      WF (cleanFold eid w l) ∧
      (∀ s ∈ l, ((eid ∈ ((cleanFold eid w l).sysStates s).entities) ↔
        (w.sysStates s).test (compNames (w.ents eid)) = true)) ∧
      (∀ e, ((cleanFold eid w l).ents e).components =
              (w.ents e).components ∧
            ((cleanFold eid w l).ents e).systemsDirty =
              (w.ents e).systemsDirty ∧
            ((cleanFold eid w l).ents e).inECS = (w.ents e).inECS) ∧
      (∀ e, e ≠ eid → (cleanFold eid w l).ents e = w.ents e) ∧
      (∀ s, ((cleanFold eid w l).sysStates s).frequency =
              (w.sysStates s).frequency ∧
            ((cleanFold eid w l).sysStates s).test =
              (w.sysStates s).test) ∧
      (∀ s e, e ≠ eid →
        ((e ∈ ((cleanFold eid w l).sysStates s).entities) ↔
          e ∈ (w.sysStates s).entities)) ∧
      (∀ s, s ∉ l → (cleanFold eid w l).sysStates s = w.sysStates s) ∧
      ((cleanFold eid w l).systems = w.systems ∧
       (cleanFold eid w l).entities = w.entities ∧
       (cleanFold eid w l).entitiesSystemsDirty =
         w.entitiesSystemsDirty ∧
       (cleanFold eid w l).updateCounter = w.updateCounter) := by
  intro l
  induction l with
  | nil =>
      intro w hwf _ _
      exact ⟨hwf, fun s hs => absurd hs (List.not_mem_nil s),
        fun e => ⟨rfl, rfl, rfl⟩, fun e _ => rfl, fun s => ⟨rfl, rfl⟩,
        fun s e _ => Iff.rfl, fun s _ => rfl, rfl, rfl, rfl, rfl⟩
  | cons s₀ tl ih =>
      intro w hwf hnd hsub
      have hs₀ : s₀ ∈ w.systems := hsub s₀ (List.mem_cons_self s₀ tl)
      have hs₀tl : s₀ ∉ tl := (List.nodup_cons.mp hnd).1
      obtain ⟨st1, st2, st3, st4, st5, st6, st7, st8a, st8b, st8c, st8d⟩ :=
        cleanStep_spec hwf hs₀
      obtain ⟨ih1, ih2, ih3, ih4, ih5, ih6, ih7, ih8a, ih8b, ih8c, ih8d⟩ :=
        ih (cleanStep eid w s₀) st1 (List.Nodup.of_cons hnd)
          (fun s hstl => st8a ▸ hsub s (List.mem_cons_of_mem _ hstl))
      have hfold : cleanFold eid w (s₀ :: tl) =
          cleanFold eid (cleanStep eid w s₀) tl := rfl
      rw [hfold]
      refine ⟨ih1, ?_, ?_, ?_, ?_, ?_, ?_,
        by rw [ih8a, st8a], by rw [ih8b, st8b], by rw [ih8c, st8c],
        by rw [ih8d, st8d]⟩
      · intro s hsl
        rcases List.mem_cons.mp hsl with hh | htl
        · subst hh
          rw [ih7 s hs₀tl]
          exact st2
        · have h2 := ih2 s htl
          rw [compNames_congr (st3 eid).1, (st5 s).2] at h2
          exact h2
      · intro e
        obtain ⟨i1, i2, i3⟩ := ih3 e
        obtain ⟨s1, s2, s3⟩ := st3 e
        exact ⟨i1.trans s1, i2.trans s2, i3.trans s3⟩
      · intro e he
        rw [ih4 e he, st4 e he]
      · intro s
        obtain ⟨i1, i2⟩ := ih5 s
        obtain ⟨s1, s2⟩ := st5 s
        exact ⟨i1.trans s1, i2.trans s2⟩
      · intro s e he
        exact (ih6 s e he).trans (st6 s e he)
      · intro s hsl
        rw [ih7 s (fun hc => hsl (List.mem_cons_of_mem _ hc)),
          st7 s (fun hc => hsl (hc ▸ List.mem_cons_self s₀ tl))]

theorem cleanEntity_spec {w : World} {eid : Nat} (hwf : WF w)
    (hnd : w.systems.Nodup) :
    WF (w.cleanEntity eid) ∧
    (∀ s ∈ w.systems,
      ((eid ∈ ((w.cleanEntity eid).sysStates s).entities) ↔
        (w.sysStates s).test (compNames (w.ents eid)) = true)) ∧
    (∀ e, ((w.cleanEntity eid).ents e).components =
            (w.ents e).components ∧
          ((w.cleanEntity eid).ents e).inECS = (w.ents e).inECS) ∧
    ((w.cleanEntity eid).ents eid).systemsDirty = false ∧
    (∀ e, e ≠ eid → (w.cleanEntity eid).ents e = w.ents e) ∧
    (∀ s, ((w.cleanEntity eid).sysStates s).frequency =
            (w.sysStates s).frequency ∧
          ((w.cleanEntity eid).sysStates s).test = (w.sysStates s).test) ∧
    (∀ s e, e ≠ eid →
      ((e ∈ ((w.cleanEntity eid).sysStates s).entities) ↔
        e ∈ (w.sysStates s).entities)) ∧
    ((w.cleanEntity eid).systems = w.systems ∧
     (w.cleanEntity eid).entities = w.entities ∧
     (w.cleanEntity eid).entitiesSystemsDirty = w.entitiesSystemsDirty ∧
     (w.cleanEntity eid).updateCounter = w.updateCounter) := by
  obtain ⟨f1, f2, f3, f4, f5, f6, f7, f8a, f8b, f8c, f8d⟩ :=
    cleanFold_spec eid w.systems w hwf hnd (fun _ hs => hs)
  have hce : w.cleanEntity eid =
      { cleanFold eid w w.systems with
        ents := Function.update (cleanFold eid w w.systems).ents eid
          ({ (cleanFold eid w w.systems).ents eid with
              systemsDirty := false }) } := rfl
  rw [hce]
  refine ⟨?_, ?_, ?_, by simp [Function.update_same], ?_, f5, f6,
    f8a, f8b, f8c, f8d⟩
  · refine WF_of_shape f1 (fun e => ?_) rfl rfl
    simp only [Function.update_apply]
    split
    · next he => subst he; rfl
    · rfl
  · intro s hs
    exact f2 s hs
  · intro e
    obtain ⟨c1, _, c3⟩ := f3 e
    simp only [Function.update_apply]
    split
    · next he => subst he; exact ⟨c1, c3⟩
    · exact ⟨c1, c3⟩
  · intro e he
    simp only [Function.update_apply, if_neg he]
    exact f4 e he

theorem cleanQueueFold_spec :
    ∀ (q : List Nat) (w : World), WF w → q.Nodup → w.systems.Nodup →
      WF (cleanQueueFold w q) ∧
      (∀ e ∈ q, ∀ s ∈ w.systems,
        ((e ∈ ((cleanQueueFold w q).sysStates s).entities) ↔
          (w.sysStates s).test (compNames (w.ents e)) = true)) ∧
      (∀ e ∈ q, ((cleanQueueFold w q).ents e).systemsDirty = false) ∧
      (∀ e, e ∉ q → (cleanQueueFold w q).ents e = w.ents e) ∧
      (∀ s e, e ∉ q →
        ((e ∈ ((cleanQueueFold w q).sysStates s).entities) ↔
          e ∈ (w.sysStates s).entities)) ∧
      (∀ e, ((cleanQueueFold w q).ents e).components =
        (w.ents e).components) ∧
      ((cleanQueueFold w q).systems = w.systems ∧
       (cleanQueueFold w q).entities = w.entities ∧
       (cleanQueueFold w q).entitiesSystemsDirty =
         w.entitiesSystemsDirty ∧
       (cleanQueueFold w q).updateCounter = w.updateCounter) := by
  intro q
  induction q with
  | nil =>
      intro w hwf _ _
      exact ⟨hwf, fun e he => absurd he (List.not_mem_nil e),
        fun e he => absurd he (List.not_mem_nil e), fun _ _ => rfl,
        fun _ _ _ => Iff.rfl, fun _ => rfl, rfl, rfl, rfl, rfl⟩
  | cons e₀ q₁ ih =>
      intro w hwf hq hsn
      have he₀ : e₀ ∉ q₁ := (List.nodup_cons.mp hq).1
      obtain ⟨c1, c2, c3, c4, c5, c6, c7, c8a, c8b, c8c, c8d⟩ :=
        cleanEntity_spec hwf hsn
      obtain ⟨i1, i2, i3, i4, i5, i6, i7a, i7b, i7c, i7d⟩ :=
        ih (w.cleanEntity e₀) c1 (List.Nodup.of_cons hq) (by rw [c8a]; exact hsn)
      have hfold : cleanQueueFold w (e₀ :: q₁) =
          cleanQueueFold (w.cleanEntity e₀) q₁ := rfl
      rw [hfold]
      refine ⟨i1, ?_, ?_, ?_, ?_, ?_,
        by rw [i7a, c8a], by rw [i7b, c8b], by rw [i7c, c8c],
        by rw [i7d, c8d]⟩
      · intro e he s hs
        rcases List.mem_cons.mp he with hh | hq₁
        · rw [hh]
          exact (i5 s e₀ he₀).trans (c2 s hs)
        · have hs₁ : s ∈ (w.cleanEntity e₀).systems := by
            rw [c8a]; exact hs
          have h2 := i2 e hq₁ s hs₁
          rw [compNames_congr (c3 e).1, (c6 s).2] at h2
          exact h2
      · intro e he
        rcases List.mem_cons.mp he with hh | hq₁
        · rw [hh, i4 e₀ he₀]
          exact c4
        · exact i3 e hq₁
      · intro e he
        have hne : e ≠ e₀ := fun hc => he (hc ▸ List.mem_cons_self e₀ q₁)
        rw [i4 e (fun hc => he (List.mem_cons_of_mem _ hc)), c5 e hne]
      · intro s e he
        have hne : e ≠ e₀ := fun hc => he (hc ▸ List.mem_cons_self e₀ q₁)
        exact (i5 s e (fun hc => he (List.mem_cons_of_mem _ hc))).trans
          (c7 s e hne)
      · intro e
        exact (i6 e).trans (c3 e).1

/-- C3: reconciliation processes every entity in the dirty queue against
every active system; afterwards a queued entity is a member of a system
exactly when the predicate holds on its components (added when eligible
and absent, removed when a member and ineligible, untouched otherwise),
membership of entities outside the queue is unchanged, every processed
entity's dirty flag is cleared, and the dirty queue is empty. -/
theorem c3_cleanDirtyEntities_correct (w : World) (hwf : WF w)
    (hq : w.entitiesSystemsDirty.Nodup) (hsys : w.systems.Nodup) :
    (∀ e ∈ w.entitiesSystemsDirty, ∀ s ∈ w.systems,
      ((e ∈ ((w.cleanDirtyEntities).sysStates s).entities) ↔
        (w.sysStates s).test (compNames (w.ents e)) = true)) ∧
    (∀ e ∈ w.entitiesSystemsDirty,
      ((w.cleanDirtyEntities).ents e).systemsDirty = false) ∧
    (∀ s e, e ∉ w.entitiesSystemsDirty →
      ((e ∈ ((w.cleanDirtyEntities).sysStates s).entities) ↔
        e ∈ (w.sysStates s).entities)) ∧
    (w.cleanDirtyEntities).entitiesSystemsDirty = [] := by
  obtain ⟨q1, q2, q3, q4, q5, q6, q7a, q7b, q7c, q7d⟩ :=
    cleanQueueFold_spec w.entitiesSystemsDirty w hwf hq hsys
  exact ⟨q2, q3, q5, rfl⟩

theorem WF_Wd : WF Wd := by
  refine ⟨?_, ?_, ?_⟩
  · intro eid sid hs
    have hs1 : sid = 3 := List.mem_singleton.mp hs
    subst hs1
    by_cases he : eid = 5
    · subst he; decide
    · simp [Wd, Function.update_apply, if_neg he, entDefault, sysDefault]
  · intro sid
    by_cases hs : sid = 3
    · subst hs; decide
    · simp [Wd, Function.update_apply, if_neg hs, sysDefault]
  · intro eid
    by_cases he : eid = 5
    · subst he; decide
    · simp [Wd, Function.update_apply, if_neg he, entDefault]

/-- Witness for C3 at the one-dirty-entity world. -/
theorem c3_cleanDirtyEntities_correct_witness :
    WF Wd ∧ Wd.entitiesSystemsDirty.Nodup ∧ Wd.systems.Nodup ∧
    ((∀ e ∈ Wd.entitiesSystemsDirty, ∀ s ∈ Wd.systems,
      ((e ∈ ((Wd.cleanDirtyEntities).sysStates s).entities) ↔
        (Wd.sysStates s).test (compNames (Wd.ents e)) = true)) ∧
    (∀ e ∈ Wd.entitiesSystemsDirty,
      ((Wd.cleanDirtyEntities).ents e).systemsDirty = false) ∧
    (∀ s e, e ∉ Wd.entitiesSystemsDirty →
      ((e ∈ ((Wd.cleanDirtyEntities).sysStates s).entities) ↔
        e ∈ (Wd.sysStates s).entities)) ∧
    (Wd.cleanDirtyEntities).entitiesSystemsDirty = []) :=
  ⟨WF_Wd, by decide, by decide,
    c3_cleanDirtyEntities_correct Wd WF_Wd (by decide) (by decide)⟩

theorem sysAddEntity_sched (w : World) (sid eid : Nat) :
    (w.sysAddEntity sid eid).updateCounter = w.updateCounter ∧
    (∀ s, ((w.sysAddEntity sid eid).sysStates s).frequency =
      (w.sysStates s).frequency) ∧
    (w.sysAddEntity sid eid).log.filter Event.isRan =
      w.log.filter Event.isRan ∧
    (w.sysAddEntity sid eid).systems = w.systems := by
  rw [sysAddEntity_eq]
  refine ⟨rfl, ?_, ?_, rfl⟩
  · intro s
    simp only [Function.update_apply]
    split
    · next hs => subst hs; rfl
    · rfl
  · simp [List.filter_append, Event.isRan]

theorem sysRemoveEntity_sched (w : World) (sid eid : Nat) :
    (w.sysRemoveEntity sid eid).updateCounter = w.updateCounter ∧
    (∀ s, ((w.sysRemoveEntity sid eid).sysStates s).frequency =
      (w.sysStates s).frequency) ∧
    (w.sysRemoveEntity sid eid).log.filter Event.isRan =
      w.log.filter Event.isRan ∧
    (w.sysRemoveEntity sid eid).systems = w.systems := by
  by_cases hm : eid ∈ (w.sysStates sid).entities
  · rw [sysRemoveEntity_mem hm]
    refine ⟨rfl, ?_, ?_, rfl⟩
    · intro s
      simp only [Function.update_apply]
      split
      · next hs => subst hs; rfl
      · rfl
    · simp [List.filter_append, Event.isRan]
  · rw [sysRemoveEntity_not_mem hm]
    exact ⟨rfl, fun _ => rfl, rfl, rfl⟩

theorem cleanStep_sched (eid : Nat) (w : World) (sid : Nat) :
    (cleanStep eid w sid).updateCounter = w.updateCounter ∧
    (∀ s, ((cleanStep eid w sid).sysStates s).frequency =
      (w.sysStates s).frequency) ∧
    (cleanStep eid w sid).log.filter Event.isRan =
      w.log.filter Event.isRan := by
  unfold cleanStep
  cases hmem : (jsIndexOf (w.ents eid).systems sid).isSome <;>
    cases ht : (w.sysStates sid).test (compNames (w.ents eid))
  · simp [hmem, ht]
  · simp only [hmem, ht]
    simpa using ⟨(sysAddEntity_sched w sid eid).1,
      (sysAddEntity_sched w sid eid).2.1,
      (sysAddEntity_sched w sid eid).2.2.1⟩
  · simp only [hmem, ht]
    simpa using ⟨(sysRemoveEntity_sched w sid eid).1,
      (sysRemoveEntity_sched w sid eid).2.1,
      (sysRemoveEntity_sched w sid eid).2.2.1⟩
  · simp [hmem, ht]

theorem cleanFold_sched (eid : Nat) :
    ∀ (l : List Nat) (w : World),
      (cleanFold eid w l).updateCounter = w.updateCounter ∧
      (∀ s, ((cleanFold eid w l).sysStates s).frequency =
        (w.sysStates s).frequency) ∧
      (cleanFold eid w l).log.filter Event.isRan =
        w.log.filter Event.isRan := by
  intro l
  induction l with
  | nil => intro w; exact ⟨rfl, fun _ => rfl, rfl⟩
  | cons s₀ tl ih =>
      intro w
      obtain ⟨i1, i2, i3⟩ := ih (cleanStep eid w s₀)
      obtain ⟨s1, s2, s3⟩ := cleanStep_sched eid w s₀
      exact ⟨i1.trans s1, fun s => (i2 s).trans (s2 s), i3.trans s3⟩

theorem cleanEntity_sched (w : World) (eid : Nat) :
    (w.cleanEntity eid).updateCounter = w.updateCounter ∧
    (∀ s, ((w.cleanEntity eid).sysStates s).frequency =
      (w.sysStates s).frequency) ∧
    (w.cleanEntity eid).log.filter Event.isRan =
      w.log.filter Event.isRan := by
  obtain ⟨f1, f2, f3⟩ := cleanFold_sched eid w.systems w
  exact ⟨f1, f2, f3⟩

theorem cleanQueueFold_sched :
    ∀ (q : List Nat) (w : World),
      (cleanQueueFold w q).updateCounter = w.updateCounter ∧
      (∀ s, ((cleanQueueFold w q).sysStates s).frequency =
        (w.sysStates s).frequency) ∧
      (cleanQueueFold w q).log.filter Event.isRan =
        w.log.filter Event.isRan := by
  intro q
  induction q with
  | nil => intro w; exact ⟨rfl, fun _ => rfl, rfl⟩
  | cons e₀ q₁ ih =>
      intro w
      obtain ⟨i1, i2, i3⟩ := ih (w.cleanEntity e₀)
      obtain ⟨c1, c2, c3⟩ := cleanEntity_sched w e₀
      exact ⟨i1.trans c1, fun s => (i2 s).trans (c2 s), i3.trans c3⟩

theorem cleanDirtyEntities_sched (w : World) :
    (w.cleanDirtyEntities).updateCounter = w.updateCounter ∧
    (∀ s, ((w.cleanDirtyEntities).sysStates s).frequency =
      (w.sysStates s).frequency) ∧
    (w.cleanDirtyEntities).log.filter Event.isRan =
      w.log.filter Event.isRan := by
  obtain ⟨q1, q2, q3⟩ := cleanQueueFold_sched w.entitiesSystemsDirty w
  exact ⟨q1, q2, q3⟩

theorem takeWhile_congr {α : Type} {p q : α → Bool} :
    ∀ (l : List α), (∀ x ∈ l, p x = q x) →
      l.takeWhile p = l.takeWhile q := by
  intro l
  induction l with
  | nil => intro _; rfl
  | cons a tl ih =>
      intro h
      rw [List.takeWhile_cons, List.takeWhile_cons,
        h a (List.mem_cons_self a tl)]
      cases hq : q a with
      | false => rfl
      | true => rw [ih (fun x hx => h x (List.mem_cons_of_mem _ hx))]

theorem get_mem_takeWhile_iff {p : Nat → Bool} :
    ∀ (l : List Nat), l.Nodup → ∀ (i : Nat) (hi : i < l.length),
      (l.get ⟨i, hi⟩ ∈ l.takeWhile p ↔
        ∀ j (hj : j ≤ i), p (l.get ⟨j, lt_of_le_of_lt hj hi⟩) = true) := by
  intro l
  induction l with
  | nil =>
      intro _ i hi
      simp at hi
  | cons a tl ih =>
      intro hnd i hi
      have ha : a ∉ tl := (List.nodup_cons.mp hnd).1
      cases i with
      | zero =>
          cases hp : p a with
          | true =>
              rw [List.takeWhile_cons, hp, if_pos rfl]
              constructor
              · intro _ j hj
                have hj0 : j = 0 := Nat.le_zero.mp hj
                subst hj0
                exact hp
              · intro _
                exact List.mem_cons_self a _
          | false =>
              rw [List.takeWhile_cons, hp, if_neg Bool.false_ne_true]
              constructor
              · intro hc
                exact absurd hc (List.not_mem_nil _)
              · intro h
                have h0 : p a = true := h 0 (Nat.le_refl 0)
                rw [hp] at h0
                cases h0
      | succ i' =>
          have hi' : i' < tl.length := by
            simpa using Nat.lt_of_succ_lt_succ hi
          have hget : (a :: tl).get ⟨i' + 1, hi⟩ = tl.get ⟨i', hi'⟩ := rfl
          cases hp : p a with
          | false =>
              rw [List.takeWhile_cons, hp, if_neg Bool.false_ne_true, hget]
              constructor
              · intro hc
                exact absurd hc (List.not_mem_nil _)
              · intro h
                have h0 : p a = true := h 0 (Nat.zero_le _)
                rw [hp] at h0
                cases h0
          | true =>
              rw [List.takeWhile_cons, hp, if_pos rfl, hget, List.mem_cons]
              have hgetne : tl.get ⟨i', hi'⟩ ≠ a :=
                fun hc => ha (hc ▸ List.get_mem tl i' hi')
              constructor
              · rintro (hc | hc)
                · exact absurd hc hgetne
                · intro j hj
                  cases j with
                  | zero => exact hp
                  | succ j' =>
                      exact (ih (List.Nodup.of_cons hnd) i' hi').mp hc j'
                        (Nat.le_of_succ_le_succ hj)
              · intro h
                refine Or.inr ((ih (List.Nodup.of_cons hnd) i' hi').mpr ?_)
                intro j hj
                exact h (j + 1) (Nat.succ_le_succ hj)

theorem gate_pass_iff {c f : Nat} (hf : 0 < f) :
    ((!gateMiss c f) = true) ↔ f ∣ c := by
  unfold gateMiss
  rw [if_neg (Nat.pos_iff_ne_zero.mp hf), Nat.dvd_iff_mod_eq_zero]
  constructor
  · intro h
    by_contra hne
    have hpos : 0 < c % f := Nat.pos_of_ne_zero hne
    simp [hpos] at h
  · intro h
    simp [h]

theorem updateLoop_ranFilter :
    ∀ (l : List Nat) (w : World),
      (updateLoop w l).log.filter Event.isRan =
        w.log.filter Event.isRan ++
          (l.takeWhile (fun sid =>
            !gateMiss w.updateCounter (w.sysStates sid).frequency)).map
            Event.ran := by
  intro l
  induction l with
  | nil =>
      intro w
      simp [updateLoop]
  | cons sid rest ih =>
      intro w
      have hstep : updateLoop w (sid :: rest) =
          if gateMiss w.updateCounter (w.sysStates sid).frequency then w
          else updateLoop
            { (if w.entitiesSystemsDirty.isEmpty then w
                else w.cleanDirtyEntities) with
              log := (if w.entitiesSystemsDirty.isEmpty then w
                else w.cleanDirtyEntities).log ++ [Event.ran sid] }
            rest := rfl
      cases hg : gateMiss w.updateCounter (w.sysStates sid).frequency with
      | true =>
          rw [hstep, hg, if_pos rfl, List.takeWhile_cons]
          simp [hg]
      | false =>
          have hsc := cleanDirtyEntities_sched w
          have hw₁c : (if w.entitiesSystemsDirty.isEmpty then w
              else w.cleanDirtyEntities).updateCounter = w.updateCounter := by
            split
            · rfl
            · exact hsc.1
          have hw₁f : ∀ s, ((if w.entitiesSystemsDirty.isEmpty then w
              else w.cleanDirtyEntities).sysStates s).frequency =
              (w.sysStates s).frequency := by
            intro s
            split
            · rfl
            · exact hsc.2.1 s
          have hw₁l : (if w.entitiesSystemsDirty.isEmpty then w
              else w.cleanDirtyEntities).log.filter Event.isRan =
              w.log.filter Event.isRan := by
            split
            · rfl
            · exact hsc.2.2
          rw [hstep, hg, if_neg Bool.false_ne_true, ih]
          rw [takeWhile_congr rest (fun x _ => by rw [hw₁c, hw₁f x])]
          rw [List.takeWhile_cons]
          simp only [hg, Bool.not_false, if_pos rfl, List.map_cons,
            List.filter_append, hw₁l]
          simp [Event.isRan, List.append_assoc]

/-- C2: on a tick, the system at position i of the systems list runs (its
updateAll is invoked, observable as a ran event) exactly when the tick
counter is a multiple of the frequency of every system at positions
0..i — its own included.  In particular every system earlier in the list
must pass its frequency gate, and once one system misses its gate no
later system runs that tick. -/
theorem c2_frequency_gating (w : World) (i : Nat) (hi : i < w.systems.length)
    (hlog : w.log = []) (hnd : w.systems.Nodup)
    (hpos : ∀ s ∈ w.systems, 0 < (w.sysStates s).frequency) :
    (Event.ran (w.systems.get ⟨i, hi⟩) ∈ (w.update).log ↔
      ∀ j (hj : j ≤ i),
        (w.sysStates (w.systems.get ⟨j, lt_of_le_of_lt hj hi⟩)).frequency ∣
          w.updateCounter) := by
  have hfil := updateLoop_ranFilter w.systems w
  rw [hlog] at hfil
  simp only [List.filter_nil, List.nil_append] at hfil
  have hmem : Event.ran (w.systems.get ⟨i, hi⟩) ∈ (w.update).log ↔
      Event.ran (w.systems.get ⟨i, hi⟩) ∈
        (updateLoop w w.systems).log.filter Event.isRan := by
    have hup : (w.update).log = (updateLoop w w.systems).log := rfl
    rw [hup]
    simp [List.mem_filter, Event.isRan]
  rw [hmem, hfil]
  have hmap : (Event.ran (w.systems.get ⟨i, hi⟩) ∈
      (w.systems.takeWhile (fun sid =>
        !gateMiss w.updateCounter (w.sysStates sid).frequency)).map
        Event.ran) ↔
      w.systems.get ⟨i, hi⟩ ∈ w.systems.takeWhile (fun sid =>
        !gateMiss w.updateCounter (w.sysStates sid).frequency) := by
    simp [List.mem_map]
  rw [hmap, get_mem_takeWhile_iff w.systems hnd i hi]
  constructor
  · intro h j hj
    exact (gate_pass_iff (hpos _ (List.get_mem w.systems j _))).mp (h j hj)
  · intro h j hj
    exact (gate_pass_iff (hpos _ (List.get_mem w.systems j _))).mpr (h j hj)

/-- Witness for C2 at the one-dirty-entity world (one system, frequency 1,
counter 0): the system runs. -/
theorem c2_frequency_gating_witness :
    Wd.log = [] ∧ Wd.systems.Nodup ∧
    (∀ s ∈ Wd.systems, 0 < (Wd.sysStates s).frequency) ∧
    (Event.ran (Wd.systems.get ⟨0, by decide⟩) ∈ (Wd.update).log ↔
      ∀ j (hj : j ≤ 0),
        (Wd.sysStates (Wd.systems.get
          ⟨j, lt_of_le_of_lt hj (by decide)⟩)).frequency ∣
          Wd.updateCounter) :=
  ⟨rfl, by decide, by decide,
    c2_frequency_gating Wd 0 (by decide) rfl (by decide) (by decide)⟩

/-- C10: when the first system of the list misses its frequency gate,
update does nothing but advance the counter: no reconciliation runs, the
dirty queue and every entity (dirty flags included), the stores, the
population and the log are all unchanged, so dirty entities stay queued
with their flags set. -/
theorem c10_gated_tick_skips_reconciliation (w : World) (sid : Nat)
    (rest : List Nat) (hsl : w.systems = sid :: rest)
    (hmiss : gateMiss w.updateCounter (w.sysStates sid).frequency = true) :
    (w.update).ents = w.ents ∧ (w.update).entities = w.entities ∧
    (w.update).sysStates = w.sysStates ∧ (w.update).systems = w.systems ∧
    (w.update).entitiesSystemsDirty = w.entitiesSystemsDirty ∧
    (w.update).log = w.log ∧
    (w.update).updateCounter = w.updateCounter + 1 ∧
    (∀ e ∈ w.entitiesSystemsDirty,
      e ∈ (w.update).entitiesSystemsDirty ∧
      ((w.update).ents e).systemsDirty = (w.ents e).systemsDirty) := by
  have hloop : updateLoop w w.systems = w := by
    rw [hsl]
    have hstep : updateLoop w (sid :: rest) =
        if gateMiss w.updateCounter (w.sysStates sid).frequency then w
        else updateLoop
          { (if w.entitiesSystemsDirty.isEmpty then w
              else w.cleanDirtyEntities) with
            log := (if w.entitiesSystemsDirty.isEmpty then w
              else w.cleanDirtyEntities).log ++ [Event.ran sid] }
          rest := rfl
    rw [hstep, hmiss, if_pos rfl]
  have hupd : w.update = { w with updateCounter := w.updateCounter + 1 } := by
    unfold World.update
    rw [hloop]
  rw [hupd]
  exact ⟨rfl, rfl, rfl, rfl, rfl, rfl, rfl, fun e he => ⟨he, rfl⟩⟩

/-- Witness for C10 at the gated world: the dirty queue and flag survive
the tick untouched. -/
theorem c10_gated_tick_witness :
    We.systems = 3 :: [] ∧
    gateMiss We.updateCounter (We.sysStates 3).frequency = true ∧
    ((We.update).ents = We.ents ∧ (We.update).entities = We.entities ∧
    (We.update).sysStates = We.sysStates ∧ (We.update).systems = We.systems ∧
    (We.update).entitiesSystemsDirty = We.entitiesSystemsDirty ∧
    (We.update).log = We.log ∧
    (We.update).updateCounter = We.updateCounter + 1 ∧
    (∀ e ∈ We.entitiesSystemsDirty,
      e ∈ (We.update).entitiesSystemsDirty ∧
      ((We.update).ents e).systemsDirty = (We.ents e).systemsDirty)) :=
  ⟨rfl, by decide,
    c10_gated_tick_skips_reconciliation We 3 [] rfl (by decide)⟩

/-- C4: evaluating removeEntity at the failing input.  Removing entity 2
(population index 1, dirty-queue index 0) removes entity 1 from the
population instead: removeEntityIfDirty looks the index up in the dirty
queue but splices this.entities, and the final population splice at the
stale index 1 is then out of range.  The dirty queue is never touched and
the call still reports entity 2 as removed. -/
theorem c4_removeEntity_wrong_splice :
    ((W4.removeEntity 2).1).entities = [2] ∧
    ((W4.removeEntity 2).1).entitiesSystemsDirty = [2] ∧
    (W4.removeEntity 2).2 = some 2 := by decide

/-- C5: evaluating Entity.dispose at the failing input.  The for..of loop
iterates the live systems array while System.removeEntity splices it: with
the cache [1, 2], only system 1 is processed (one exit event), after which
the iterator index 1 has passed the end of the shrunk array [2].  The
entity remains a member of system 2 on both sides. -/
theorem c5_dispose_skips_second_system :
    (W2.entDispose 7).log = [Event.exit 1 7] ∧
    ((W2.entDispose 7).ents 7).systems = [2] ∧
    ((W2.entDispose 7).sysStates 2).entities = [7] ∧
    ((W2.entDispose 7).sysStates 1).entities = [] := by decide

theorem withComponents_flag (w : World) (eid : Nat)
    (m : List (String × FieldMap)) :
    ((withComponents w eid m).ents eid).systemsDirty =
      (w.ents eid).systemsDirty := by
  unfold withComponents
  dsimp only
  rw [Function.update_same]

theorem withComponents_inECS (w : World) (eid : Nat)
    (m : List (String × FieldMap)) :
    ((withComponents w eid m).ents eid).inECS = (w.ents eid).inECS := by
  unfold withComponents
  dsimp only
  rw [Function.update_same]

theorem withComponents_components (w : World) (eid : Nat)
    (m : List (String × FieldMap)) :
    ((withComponents w eid m).ents eid).components = m := by
  unfold withComponents
  dsimp only
  rw [Function.update_same]

theorem withComponents_queue (w : World) (eid : Nat)
    (m : List (String × FieldMap)) :
    (withComponents w eid m).entitiesSystemsDirty =
      w.entitiesSystemsDirty := rfl

theorem addComponent_eq (w : World) (eid : Nat) (n : String)
    (c : FieldMap) :
    w.addComponent eid n c =
      (withComponents w eid
        (setAssoc (w.ents eid).components n c)).setSystemsDirty eid := rfl

theorem removeComponent_none {w : World} {eid : Nat} {n : String}
    (hl : lookupAssoc (w.ents eid).components n = none) :
    w.removeComponent eid n = w := by
  unfold World.removeComponent
  simp only [hl]

theorem removeComponent_some {w : World} {eid : Nat} {n : String}
    {c : FieldMap}
    (hl : lookupAssoc (w.ents eid).components n = some c) :
    w.removeComponent eid n =
      (withComponents w eid
        (eraseAssoc (w.ents eid).components n)).setSystemsDirty eid := by
  unfold World.removeComponent
  simp only [hl]
  rfl

theorem setSystemsDirty_count {w : World} {eid : Nat}
    (h : w.entitiesSystemsDirty.count eid ≤
      (if (w.ents eid).systemsDirty = true then 1 else 0)) :
    (w.setSystemsDirty eid).entitiesSystemsDirty.count eid ≤
      (if ((w.setSystemsDirty eid).ents eid).systemsDirty = true then 1
       else 0) := by
  by_cases hd : (w.ents eid).systemsDirty = true
  · rw [setSystemsDirty_neg (Or.inl hd)]
    exact h
  · have hd₁ : (w.ents eid).systemsDirty = false := by simpa using hd
    by_cases hi : (w.ents eid).inECS = true
    · rw [setSystemsDirty_pos hd₁ hi]
      have h0 : w.entitiesSystemsDirty.count eid = 0 := by
        rw [hd₁] at h
        simpa using h
      simp [Function.update_same, List.count_append, h0]
    · rw [setSystemsDirty_neg (Or.inr (by simpa using hi))]
      exact h

theorem dirtyOp_count {w : World} {eid : Nat} (op : DirtyOp)
    (h : w.entitiesSystemsDirty.count eid ≤
      (if (w.ents eid).systemsDirty = true then 1 else 0)) :
    (applyDirtyOp eid w op).entitiesSystemsDirty.count eid ≤
      (if ((applyDirtyOp eid w op).ents eid).systemsDirty = true then 1
       else 0) := by
  cases op with
  | mark => exact setSystemsDirty_count h
  | addComp n c =>
      rw [show applyDirtyOp eid w (DirtyOp.addComp n c) =
        w.addComponent eid n c from rfl, addComponent_eq]
      refine setSystemsDirty_count ?_
      rw [withComponents_queue, withComponents_flag]
      exact h
  | remComp n =>
      rw [show applyDirtyOp eid w (DirtyOp.remComp n) =
        w.removeComponent eid n from rfl]
      cases hl : lookupAssoc (w.ents eid).components n with
      | none =>
          rw [removeComponent_none hl]
          exact h
      | some c =>
          rw [removeComponent_some hl]
          refine setSystemsDirty_count ?_
          rw [withComponents_queue, withComponents_flag]
          exact h

theorem dirtyOp_detached {w : World} {eid : Nat} (op : DirtyOp)
    (h : (w.ents eid).inECS = false) :
    (applyDirtyOp eid w op).entitiesSystemsDirty =
      w.entitiesSystemsDirty ∧
    ((applyDirtyOp eid w op).ents eid).systemsDirty =
      (w.ents eid).systemsDirty ∧
    ((applyDirtyOp eid w op).ents eid).inECS = false := by
  cases op with
  | mark =>
      rw [show applyDirtyOp eid w DirtyOp.mark = w.setSystemsDirty eid
        from rfl, setSystemsDirty_neg (Or.inr h)]
      exact ⟨rfl, rfl, h⟩
  | addComp n c =>
      rw [show applyDirtyOp eid w (DirtyOp.addComp n c) =
        w.addComponent eid n c from rfl, addComponent_eq]
      have hi := (withComponents_inECS w eid
        (setAssoc (w.ents eid).components n c)).trans h
      rw [setSystemsDirty_neg (Or.inr hi)]
      exact ⟨withComponents_queue w eid _, withComponents_flag w eid _, hi⟩
  | remComp n =>
      rw [show applyDirtyOp eid w (DirtyOp.remComp n) =
        w.removeComponent eid n from rfl]
      cases hl : lookupAssoc (w.ents eid).components n with
      | none =>
          rw [removeComponent_none hl]
          exact ⟨rfl, rfl, h⟩
      | some c =>
          rw [removeComponent_some hl]
          have hi := (withComponents_inECS w eid
            (eraseAssoc (w.ents eid).components n)).trans h
          rw [setSystemsDirty_neg (Or.inr hi)]
          exact ⟨withComponents_queue w eid _, withComponents_flag w eid _,
            hi⟩

theorem dirtyOps_count (eid : Nat) :
    ∀ (ops : List DirtyOp) (w : World),
      w.entitiesSystemsDirty.count eid ≤
        (if (w.ents eid).systemsDirty = true then 1 else 0) →
      (applyDirtyOps eid w ops).entitiesSystemsDirty.count eid ≤
        (if ((applyDirtyOps eid w ops).ents eid).systemsDirty = true then 1
         else 0) := by
  intro ops
  induction ops with
  | nil => intro w h; exact h
  | cons op rest ih =>
      intro w h
      exact ih _ (dirtyOp_count op h)

theorem dirtyOps_detached (eid : Nat) :
    ∀ (ops : List DirtyOp) (w : World), (w.ents eid).inECS = false →
      (applyDirtyOps eid w ops).entitiesSystemsDirty =
        w.entitiesSystemsDirty ∧
      ((applyDirtyOps eid w ops).ents eid).systemsDirty =
        (w.ents eid).systemsDirty ∧
      ((applyDirtyOps eid w ops).ents eid).inECS = false := by
  intro ops
  induction ops with
  | nil => intro w h; exact ⟨rfl, rfl, h⟩
  | cons op rest ih =>
      intro w h
      obtain ⟨d1, d2, d3⟩ := dirtyOp_detached op h
      obtain ⟨i1, i2, i3⟩ := ih (applyDirtyOp eid w op) d3
      exact ⟨i1.trans d1, i2.trans d2, i3⟩

/-- C7: starting from a clean window (dirty flag down, entity not in the
queue), any sequence of dirty-marking operations enqueues the entity at
most once; a detached entity is never enqueued and its flag is never
set. -/
theorem c7_dirty_at_most_once (w : World) (eid : Nat) (ops : List DirtyOp)
    (hflag : (w.ents eid).systemsDirty = false)
    (hq : w.entitiesSystemsDirty.count eid = 0) :
    (applyDirtyOps eid w ops).entitiesSystemsDirty.count eid ≤ 1 ∧
    ((w.ents eid).inECS = false →
      (applyDirtyOps eid w ops).entitiesSystemsDirty =
        w.entitiesSystemsDirty ∧
      ((applyDirtyOps eid w ops).ents eid).systemsDirty = false) := by
  constructor
  · have h0 : w.entitiesSystemsDirty.count eid ≤
        (if (w.ents eid).systemsDirty = true then 1 else 0) := by
      rw [hflag, hq]
      simp
    have hcnt := dirtyOps_count eid ops w h0
    split at hcnt
    · exact hcnt
    · exact hcnt.trans (Nat.zero_le 1)
  · intro hdet
    obtain ⟨d1, d2, d3⟩ := dirtyOps_detached eid ops w hdet
    exact ⟨d1, d2.trans hflag⟩

/-- Witness for C7: marking entity 7 of Wc dirty twice enqueues it once. -/
theorem c7_dirty_at_most_once_witness :
    (Wc.ents 7).systemsDirty = false ∧
    Wc.entitiesSystemsDirty.count 7 = 0 ∧
    ((applyDirtyOps 7 Wc [DirtyOp.mark, DirtyOp.mark]
        ).entitiesSystemsDirty.count 7 ≤ 1 ∧
     ((Wc.ents 7).inECS = false →
       (applyDirtyOps 7 Wc [DirtyOp.mark, DirtyOp.mark]
         ).entitiesSystemsDirty = Wc.entitiesSystemsDirty ∧
       ((applyDirtyOps 7 Wc [DirtyOp.mark, DirtyOp.mark]).ents 7
         ).systemsDirty = false)) :=
  ⟨by decide, by decide,
    c7_dirty_at_most_once Wc 7 [DirtyOp.mark, DirtyOp.mark]
      (by decide) (by decide)⟩

/-- C8 counterexample: updateComponent on the absent name x with an empty
field record raises no error at all: the JS loop body never runs, so the
call silently returns.  The claim asserts an error is raised whenever the
name is absent. -/
theorem c8_counterexample_empty_update :
    entDefault.updateComponent ("x") [] = Except.ok entDefault := rfl

/-- C8 (amended): updateComponent on an absent component name raises an
error exactly when at least one field is supplied (the first property
write throws); with an empty field record the call is a silent no-op.  In
every successful case it neither touches the dirty flag, nor the dirty
queue, nor any membership list, nor any other entity or coordinator
state; in the error case the JS exception propagates before any state is
written. -/
theorem c8_updateComponent_no_dirty (w : World) (eid : Nat) (name : String)
    (data : FieldMap) :
    (lookupAssoc (w.ents eid).components name = none →
      data.isEmpty = false →
      w.updateComponent eid name data = Except.error ()) ∧
    (∀ w₁, w.updateComponent eid name data = Except.ok w₁ →
      (w₁.ents eid).systemsDirty = (w.ents eid).systemsDirty ∧
      (w₁.ents eid).systems = (w.ents eid).systems ∧
      (∀ e, e ≠ eid → w₁.ents e = w.ents e) ∧
      w₁.entitiesSystemsDirty = w.entitiesSystemsDirty ∧
      w₁.sysStates = w.sysStates ∧ w₁.systems = w.systems ∧
      w₁.entities = w.entities ∧ w₁.log = w.log ∧
      w₁.updateCounter = w.updateCounter) := by
  constructor
  · intro hl hd
    unfold World.updateComponent EntityState.updateComponent
    rw [hl, hd]
    simp
  · intro w₁ hok
    unfold World.updateComponent at hok
    cases he : (w.ents eid).updateComponent name data with
    | error err =>
        rw [he] at hok
        cases hok
    | ok e₁ =>
        rw [he] at hok
        injection hok with hok
        subst hok
        have hfields : e₁.systemsDirty = (w.ents eid).systemsDirty ∧
            e₁.systems = (w.ents eid).systems := by
          unfold EntityState.updateComponent at he
          cases hl : lookupAssoc (w.ents eid).components name with
          | none =>
              rw [hl] at he
              cases hd : data.isEmpty with
              | true =>
                  rw [hd] at he
                  have he₂ : (Except.ok (w.ents eid) :
                      Except Unit EntityState) = Except.ok e₁ := by
                    simpa using he
                  injection he₂ with he₂
                  rw [← he₂]
                  exact ⟨rfl, rfl⟩
              | false =>
                  rw [hd] at he
                  simp at he
          | some c =>
              rw [hl] at he
              simp only [Except.ok.injEq] at he
              rw [← he]
              exact ⟨rfl, rfl⟩
        refine ⟨?_, ?_, ?_, rfl, rfl, rfl, rfl, rfl, rfl⟩
        · show (Function.update w.ents eid e₁ eid).systemsDirty = _
          rw [Function.update_same]
          exact hfields.1
        · show (Function.update w.ents eid e₁ eid).systems = _
          rw [Function.update_same]
          exact hfields.2
        · intro e he₂
          show Function.update w.ents eid e₁ e = w.ents e
          rw [Function.update_noteq he₂]

/-- Witness for C8: a nonempty update of the absent name y errors. -/
theorem c8_updateComponent_no_dirty_witness :
    lookupAssoc (Wd.ents 5).components ("y") = none ∧
    ([(("a"), (1 : Int))] : FieldMap).isEmpty = false ∧
    Wd.updateComponent 5 ("y") [(("a"), 1)] = Except.error () :=
  ⟨by decide, rfl,
    (c8_updateComponent_no_dirty Wd 5 ("y") [(("a"), 1)]).1
      (by decide) rfl⟩

theorem lookupAssoc_eq_none {α : Type} :
    ∀ (m : List (String × α)) (k : String),
      lookupAssoc m k = none ↔ k ∉ m.map Prod.fst := by
  intro m k
  induction m with
  | nil => simp [lookupAssoc]
  | cons p rest ih =>
      obtain ⟨k₁, v₁⟩ := p
      by_cases hk : k₁ = k
      · subst hk
        simp [lookupAssoc]
      · simp [lookupAssoc, hk, ih, Ne.symm hk]

theorem lookupAssoc_eraseAssoc_self {α : Type} :
    ∀ (m : List (String × α)) (k : String), (m.map Prod.fst).Nodup →
      lookupAssoc (eraseAssoc m k) k = none := by
  intro m k
  induction m with
  | nil => intro _; rfl
  | cons p rest ih =>
      intro hnd
      obtain ⟨k₁, v₁⟩ := p
      by_cases hk : k₁ = k
      · subst hk
        rw [show eraseAssoc ((k₁, v₁) :: rest) k₁ = rest from by
          simp [eraseAssoc]]
        rw [lookupAssoc_eq_none]
        exact (List.nodup_cons.mp (by simpa using hnd)).1
      · rw [show eraseAssoc ((k₁, v₁) :: rest) k = (k₁, v₁) :: eraseAssoc
          rest k from by simp [eraseAssoc, hk]]
        rw [show lookupAssoc ((k₁, v₁) :: eraseAssoc rest k) k =
          lookupAssoc (eraseAssoc rest k) k from by simp [lookupAssoc, hk]]
        exact ih (List.Nodup.of_cons (by simpa using hnd))

theorem setSystemsDirty_components (w : World) (eid e : Nat) :
    ((w.setSystemsDirty eid).ents e).components =
      (w.ents e).components := by
  by_cases hd : (w.ents eid).systemsDirty = true
  · rw [setSystemsDirty_neg (Or.inl hd)]
  · have hd₁ : (w.ents eid).systemsDirty = false := by simpa using hd
    by_cases hi : (w.ents eid).inECS = true
    · rw [setSystemsDirty_pos hd₁ hi]
      dsimp only
      rw [Function.update_apply]
      split
      · next he => subst he; rfl
      · rfl
    · rw [setSystemsDirty_neg (Or.inr (by simpa using hi))]

/-- C9 counterexample: System.addEntity is not defensive against redundant
invocation: adding entity 7 to system 1 twice leaves duplicate entries in
both the member list and the membership cache, unlike a single call. -/
theorem c9_counterexample_double_add :
    ((Wb.sysAddEntity 1 7).sysStates 1).entities = [7] ∧
    (((Wb.sysAddEntity 1 7).sysAddEntity 1 7).sysStates 1).entities =
      [7, 7] ∧
    (((Wb.sysAddEntity 1 7).sysAddEntity 1 7).ents 7).systems =
      [1, 1] := by decide

/-- C9 (amended): the removal-side bookkeeping is defensive —
System.removeEntity on a non-member, Entity.removeSystem for an absent
system and removeComponent for an absent name are exact no-ops, and
removeComponent of a present name followed by a second call equals the
single call (the second is a no-op).  System.addEntity however is not
defensive: it unconditionally appends to the member list and the
membership cache, so a redundant call duplicates both entries; the
coordinator avoids this by its membership-presence check. -/
theorem c9_defensive_removals (w : World) (sid eid : Nat)
    (name name₂ : String) (c : FieldMap)
    (h1 : eid ∉ (w.sysStates sid).entities)
    (h2 : sid ∉ (w.ents eid).systems)
    (h3 : lookupAssoc (w.ents eid).components name = none)
    (h4 : lookupAssoc (w.ents eid).components name₂ = some c)
    (hkeys : ((w.ents eid).components.map Prod.fst).Nodup) :
    w.sysRemoveEntity sid eid = w ∧
    w.entRemoveSystem eid sid = w ∧
    w.removeComponent eid name = w ∧
    ((w.removeComponent eid name₂).removeComponent eid name₂ =
      w.removeComponent eid name₂) ∧
    ((w.sysAddEntity sid eid).sysStates sid).entities =
      (w.sysStates sid).entities ++ [eid] ∧
    ((w.sysAddEntity sid eid).ents eid).systems =
      (w.ents eid).systems ++ [sid] := by
  refine ⟨sysRemoveEntity_not_mem h1, ?_, removeComponent_none h3,
    ?_, ?_, ?_⟩
  · rw [entRemoveSystem_eq, List.erase_of_not_mem h2]
    rw [show ({ w.ents eid with systems := (w.ents eid).systems } :
      EntityState) = w.ents eid from rfl]
    rw [Function.update_eq_self]
  · rw [removeComponent_some h4]
    have hnone : lookupAssoc
        (((withComponents w eid (eraseAssoc (w.ents eid).components
          name₂)).setSystemsDirty eid).ents eid).components name₂ =
        none := by
      rw [setSystemsDirty_components, withComponents_components]
      exact lookupAssoc_eraseAssoc_self _ _ hkeys
    rw [removeComponent_none hnone]
  · rw [sysAddEntity_eq]
    dsimp only
    rw [Function.update_same]
  · rw [sysAddEntity_eq]
    dsimp only
    rw [Function.update_same]

/-- Witness for C9 at the one-dirty-entity world: system 0 has no members,
entity 5 owns component x and lacks component y. -/
theorem c9_defensive_removals_witness :
    5 ∉ (Wd.sysStates 0).entities ∧
    0 ∉ (Wd.ents 5).systems ∧
    lookupAssoc (Wd.ents 5).components ("y") = none ∧
    lookupAssoc (Wd.ents 5).components ("x") = some [] ∧
    ((Wd.ents 5).components.map Prod.fst).Nodup ∧
    (Wd.sysRemoveEntity 0 5 = Wd ∧
     Wd.entRemoveSystem 5 0 = Wd ∧
     Wd.removeComponent 5 ("y") = Wd ∧
     ((Wd.removeComponent 5 ("x")).removeComponent 5 ("x") =
       Wd.removeComponent 5 ("x")) ∧
     ((Wd.sysAddEntity 0 5).sysStates 0).entities =
       (Wd.sysStates 0).entities ++ [5] ∧
     ((Wd.sysAddEntity 0 5).ents 5).systems =
       (Wd.ents 5).systems ++ [0]) :=
  ⟨by decide, by decide, by decide, by decide, by decide,
    c9_defensive_removals Wd 0 5 ("y") ("x") [] (by decide) (by decide)
      (by decide) (by decide) (by decide)⟩
